import Mathlib

/-!
# Paging simulator (main.c): TLB, page table, frame allocation, LRU and Second-Chance

A shallow embedding of the address-translation pipeline of `main.c`.

* The global arrays `page_table`, `tlb` and `frame_usage` are total functions on
  `Nat`; only indices below the array length are ever meaningful.  An access the C
  program would make outside an array (`page_table[-1]` when `lru_replacement`
  finds no candidate, a victim index or a frame index outside its table) and the
  signed overflow of `lru_counter++` are undefined behaviour in C; the embedding
  makes them explicit: the function returns `none`.
* `uint32_t` values are `Nat`, `int`/`long int` values are `Int`; the conversions
  the C code performs silently are `toInt32` and `toUInt32`.  The three `long int`
  statistics are unbounded integers: their overflow, after `2^63` references, is
  not modelled.
* The `static` locals `tlb_index` (of `update_tlb`) and `pointer`
  (of `second_chance_replacement`) are fields of the state.
* The three `#define`d table sizes are collected in `Config`; `source_config`
  holds the values of `main.c`.  All functions are stated for an arbitrary
  configuration so that the reduced-capacity scenarios of the specification
  (a single frame, a two-entry TLB) can be stated as well.
* The `while (true)` loop of `second_chance_replacement` is bounded by fuel; it is
  proved below that the fuel used is always sufficient.
* `read_trace_file` and `main` call the C library: the trace file is the list of the
  records `fscanf` meets (`Record`), `fopen` and `atoi` are parameters, and the result
  of a call is an `Outcome` (returned, `exit`, undefined behaviour, or still running
  when the fuel of the `while` loop is spent).
-/

namespace PagingSim

/-! ## Constants and data model -/

/-- The table sizes that `main.c` fixes with `#define`. -/
structure Config where
  FRAME_COUNT : Nat
  TLB_SIZE : Nat
  PAGE_TABLE_SIZE : Nat

/-- The configuration of `main.c`: 64 frames, 16 TLB entries, `1 << 20` pages. -/
def source_config : Config :=
  { FRAME_COUNT := 64, TLB_SIZE := 16, PAGE_TABLE_SIZE := 1 <<< 20 }

/-- The limit of `int` on the platforms the program targets (`<limits.h>`). -/
def INT_MAX : Int := 2147483647

/-- Sizes the program makes sense for: at least one frame and one TLB slot, a page
table at least as long as the frame table (frame numbers index it, line 119) and no
longer than the `2^20` page numbers of a 32-bit address, and a TLB whose length fits
the `int` loop counter. -/
def Config.WellFormed (c : Config) : Prop :=
  0 < c.FRAME_COUNT ∧ c.FRAME_COUNT ≤ c.PAGE_TABLE_SIZE ∧ c.PAGE_TABLE_SIZE ≤ 2 ^ 20 ∧
  0 < c.TLB_SIZE ∧ c.TLB_SIZE ≤ 2 ^ 31

instance (c : Config) : Decidable c.WellFormed := by
  unfold Config.WellFormed; infer_instance

/-- Entry of `page_table` (`PageTableEntry` in main.c). -/
structure PageTableEntry where
  page_number : Nat
  frame_number : Nat
  valid : Bool
  reference : Bool
  lru_counter : Int

/-- Entry of `tlb` (`TLBEntry` in main.c). -/
structure TLBEntry where
  page_number : Nat
  frame_number : Nat
  valid : Bool

/-- All global and `static` variables of main.c. -/
structure State where
  page_table : Nat → PageTableEntry
  tlb : Nat → TLBEntry
  frame_usage : Nat → Int
  lru_counter : Int
  tlb_miss : Int
  tlb_hits : Int
  page_faults : Int
  tlb_index : Nat
  pointer : Nat

/-- Array store `a[i] = v`. -/
def store {α : Type} (a : Nat → α) (i : Nat) (v : α) : Nat → α :=
  fun j => if j = i then v else a j

/-- Conversion `uint32_t → int` (two's complement). -/
def toInt32 (x : Nat) : Int :=
  if x % 2 ^ 32 < 2 ^ 31 then ((x % 2 ^ 32 : Nat) : Int) else ((x % 2 ^ 32 : Nat) : Int) - 2 ^ 32

/-- Conversion `int → uint32_t` (reduction modulo `2^32`). -/
def toUInt32 (x : Int) : Nat := (x % 2 ^ 32).toNat

/-! ## Initialisation -/

/-- Static storage before `main` runs: every object is zero. -/
def zero_state : State :=
  { page_table := fun _ => ⟨0, 0, false, false, 0⟩
    tlb := fun _ => ⟨0, 0, false⟩
    frame_usage := fun _ => 0
    lru_counter := 0
    tlb_miss := 0
    tlb_hits := 0
    page_faults := 0
    tlb_index := 0
    pointer := 0 }

/-- Translation of `init_page_table`. -/
def init_page_table (c : Config) (s : State) : State :=
  { s with page_table := fun i =>
      if i < c.PAGE_TABLE_SIZE then
        { s.page_table i with valid := false, reference := false, lru_counter := 0 }
      else s.page_table i }

/-- Translation of `init_tlb`. -/
def init_tlb (c : Config) (s : State) : State :=
  { s with tlb := fun i =>
      if i < c.TLB_SIZE then { s.tlb i with valid := false } else s.tlb i }

/-- The state in which `main` starts reading the trace. -/
def initial (c : Config) : State := init_tlb c (init_page_table c zero_state)

/-! ## TLB -/

/-- The `for` loop of `search_tlb`: `n` iterations remain, the loop variable is `i`. -/
def search_tlb_loop (tlb : Nat → TLBEntry) (page_number : Nat) : Nat → Nat → Int
  | 0, _ => -1
  | n + 1, i =>
    if (tlb i).valid && (tlb i).page_number == page_number then
      toInt32 (tlb i).frame_number
    else search_tlb_loop tlb page_number n (i + 1)

/-- Translation of `search_tlb`. -/
def search_tlb (c : Config) (s : State) (page_number : Nat) : Int :=
  search_tlb_loop s.tlb page_number c.TLB_SIZE 0

/-- Translation of `update_tlb`. -/
def update_tlb (c : Config) (s : State) (page_number frame_number : Nat) : State :=
  { s with
    tlb := store s.tlb s.tlb_index ⟨page_number, frame_number, true⟩
    tlb_index := (s.tlb_index + 1) % c.TLB_SIZE }

/-! ## Frames -/

/-- The `for` loop of `find_free_frame`: `n` iterations remain, the loop variable is `i`. -/
def find_free_frame_loop (frame_usage : Nat → Int) : Nat → Nat → Int
  | 0, _ => -1
  | n + 1, i =>
    if frame_usage i = 0 then (i : Int) else find_free_frame_loop frame_usage n (i + 1)

/-- Translation of `find_free_frame`. -/
def find_free_frame (c : Config) (s : State) : Int :=
  find_free_frame_loop s.frame_usage c.FRAME_COUNT 0

/-! ## Replacement policies -/

/-- The `for` loop of `lru_replacement`: the pair `(oldest, min_counter)` after the
iterations `i = 0, ..., k - 1`. -/
def lru_scan (page_table : Nat → PageTableEntry) : Nat → Int × Int
  | 0 => (-1, INT_MAX)
  | k + 1 =>
    if (page_table k).valid && decide ((page_table k).lru_counter < (lru_scan page_table k).2) then
      ((k : Int), (page_table k).lru_counter)
    else lru_scan page_table k

/-- Translation of `lru_replacement`: `none` stands for the read of `page_table[-1]`. -/
def lru_replacement (c : Config) (s : State) : Option Int :=
  let oldest := (lru_scan s.page_table c.PAGE_TABLE_SIZE).1
  if oldest < 0 then none
  else some (toInt32 (s.page_table oldest.toNat).frame_number)

/-- The `while (true)` loop of `second_chance_replacement`, bounded by fuel.  The
result is the page table and cursor at the `return`, and the value returned. -/
def second_chance_loop (c : Config) :
    Nat → (Nat → PageTableEntry) → Nat → Option ((Nat → PageTableEntry) × Nat × Int)
  | 0, _, _ => none
  | fuel + 1, page_table, pointer =>
    if !(page_table pointer).reference then
      some (page_table, pointer, toInt32 (page_table pointer).frame_number)
    else
      second_chance_loop c fuel
        (store page_table pointer { page_table pointer with reference := false })
        ((pointer + 1) % c.PAGE_TABLE_SIZE)

/-- Translation of `second_chance_replacement`. -/
def second_chance_replacement (c : Config) (s : State) : Option (State × Int) :=
  match second_chance_loop c (c.PAGE_TABLE_SIZE + 1) s.page_table s.pointer with
  | none => none
  | some (page_table, pointer, r) =>
    some ({ s with page_table := page_table, pointer := pointer }, r)

/-! ## Fault handling and translation -/

/-- Translation of `handle_page_fault`.  `none` stands for an access outside
`page_table` or `frame_usage`. -/
def handle_page_fault (c : Config) (s : State) (page_number : Nat) (policy : Int) :
    Option State :=
  let chosen : Option (State × Int) :=
    if find_free_frame c s = -1 then
      match (if policy = 0 then (lru_replacement c s).map (fun v => (s, v))
             else second_chance_replacement c s) with
      | none => none
      | some (s1, victim_page) =>
        if 0 ≤ victim_page ∧ victim_page < c.PAGE_TABLE_SIZE then
          let victim := s1.page_table victim_page.toNat
          some ({ s1 with
                  page_table :=
                    store s1.page_table victim_page.toNat { victim with valid := false } },
                toInt32 victim.frame_number)
        else none
    else some (s, find_free_frame c s)
  match chosen with
  | none => none
  | some (s2, frame_number) =>
    if 0 ≤ frame_number ∧ frame_number < c.FRAME_COUNT then
      let entry := s2.page_table page_number
      let s3 : State := { s2 with
        page_table := store s2.page_table page_number
          { entry with frame_number := toUInt32 frame_number, valid := true } }
      let s4 : State := { s3 with frame_usage := store s3.frame_usage frame_number.toNat 1 }
      let s5 := update_tlb c s4 page_number (toUInt32 frame_number)
      some { s5 with page_faults := s5.page_faults + 1 }
    else none

/-- Translation of `process_address`; the second component of the result is the
physical address that is printed.  `none` stands for undefined behaviour: a page
number outside `page_table`, a failure of `handle_page_fault`, or the overflow of
`lru_counter++`. -/
def process_address (c : Config) (s : State) (address : Nat) (policy : Int) :
    Option (State × Nat) :=
  let page_number := address >>> 12
  let offset := address &&& 0xFFF
  if page_number < c.PAGE_TABLE_SIZE then
    let looked : Option (State × Int) :=
      if search_tlb c s page_number = -1 then
        let s1 : State := { s with tlb_miss := s.tlb_miss + 1 }
        match (if !(s1.page_table page_number).valid then
                 handle_page_fault c s1 page_number policy
               else some s1) with
        | none => none
        | some s2 =>
          let frame_number := toInt32 (s2.page_table page_number).frame_number
          some (update_tlb c s2 page_number (toUInt32 frame_number), frame_number)
      else some ({ s with tlb_hits := s.tlb_hits + 1 }, search_tlb c s page_number)
    match looked with
    | none => none
    | some (s3, frame_number) =>
      let touched : Option State :=
        if policy = 0 then
          if s3.lru_counter < INT_MAX then
            some { s3 with
              page_table := store s3.page_table page_number
                { s3.page_table page_number with lru_counter := s3.lru_counter }
              lru_counter := s3.lru_counter + 1 }
          else none
        else
          some { s3 with
            page_table := store s3.page_table page_number
              { s3.page_table page_number with reference := true } }
      match touched with
      | none => none
      | some s4 => some (s4, toUInt32 (frame_number * 4096) ||| offset)
  else none

/-- Run `process_address` over a list of addresses (the loop of `read_trace_file`
on a well-formed trace); `none` when some call has undefined behaviour. -/
def run (c : Config) (policy : Int) : State → List Nat → Option State
  | s, [] => some s
  | s, a :: rest =>
    match process_address c s a policy with
    | none => none
    | some (s1, _) => run c policy s1 rest

/-- States the program can be in after finitely many calls of `process_address` on
32-bit addresses, starting from `initial`. -/
inductive Reachable (c : Config) (policy : Int) : State → Prop
  | init : Reachable c policy (initial c)
  | step {s s1 : State} {address physical : Nat} :
      Reachable c policy s → address < 2 ^ 32 →
      process_address c s address policy = some (s1, physical) →
      Reachable c policy s1

/-! ## Auxiliary definitions used to state and prove the properties -/

/-- Two page-table entries that differ at most in the reference bit. -/
def SameButReference (e1 e2 : PageTableEntry) : Prop :=
  e1.page_number = e2.page_number ∧ e1.frame_number = e2.frame_number ∧
  e1.valid = e2.valid ∧ e1.lru_counter = e2.lru_counter

/-- Effect of `page_table[victim_page].valid = false` (line 120). -/
def evict (s : State) (victim_page : Nat) : State :=
  { s with page_table :=
      store s.page_table victim_page { s.page_table victim_page with valid := false } }

/-- Effect of lines 122-126 of `handle_page_fault` for a frame index `frame` inside
`frame_usage`. -/
def bind_frame (c : Config) (s : State) (page_number frame : Nat) : State :=
  { s with
    page_table := store s.page_table page_number
      { s.page_table page_number with frame_number := frame, valid := true }
    frame_usage := store s.frame_usage frame 1
    tlb := store s.tlb s.tlb_index ⟨page_number, frame, true⟩
    tlb_index := (s.tlb_index + 1) % c.TLB_SIZE
    page_faults := s.page_faults + 1 }

/-- Effect of lines 150-157 of `process_address` when `lru_counter++` does not
overflow. -/
def touch (s : State) (page_number : Nat) (policy : Int) : State :=
  if policy = 0 then
    { s with
      page_table := store s.page_table page_number
        { s.page_table page_number with lru_counter := s.lru_counter }
      lru_counter := s.lru_counter + 1 }
  else
    { s with
      page_table := store s.page_table page_number
        { s.page_table page_number with reference := true } }

/-- Effect of `tlb_miss++` (line 137). -/
def count_miss (s : State) : State := { s with tlb_miss := s.tlb_miss + 1 }

/-- Effect of `tlb_hits++` (line 147). -/
def count_hit (s : State) : State := { s with tlb_hits := s.tlb_hits + 1 }

/-- Value of `(frame_number << 12) | offset` as a `uint32_t` (line 159). -/
def physical_address (frame_number : Int) (address : Nat) : Nat :=
  toUInt32 (frame_number * 4096) ||| (address &&& 0xFFF)

/-- Facts that hold in every state the program can reach (see `reachable_inv`). -/
structure Inv (c : Config) (s : State) : Prop where
  /-- every frame number stored in the page table is a frame index -/
  frames_lt : ∀ i, (s.page_table i).frame_number < c.FRAME_COUNT
  /-- the Second-Chance cursor is a page index -/
  pointer_lt : s.pointer < c.PAGE_TABLE_SIZE
  /-- the FIFO cursor is a TLB index -/
  tlb_index_lt : s.tlb_index < c.TLB_SIZE
  /-- a frame is free or a page is resident -/
  resident : (∃ i, i < c.FRAME_COUNT ∧ s.frame_usage i = 0) ∨
    (∃ i, i < c.PAGE_TABLE_SIZE ∧ (s.page_table i).valid = true)
  /-- no time stamp is ahead of the clock `lru_counter` -/
  counters : ∀ i, (s.page_table i).lru_counter ≤ s.lru_counter
  /-- every frame number stored in the TLB is a frame index -/
  tlb_frames : ∀ j, (s.tlb j).frame_number < c.FRAME_COUNT
  /-- a valid TLB slot whose page is resident holds the frame of that page -/
  tlb_consistent : ∀ j, j < c.TLB_SIZE → (s.tlb j).valid = true →
    (s.page_table (s.tlb j).page_number).valid = true →
    (s.page_table (s.tlb j).page_number).frame_number = (s.tlb j).frame_number

/-- The state after the calls `process_address(a, policy)` for the addresses `a` of
`trace`, in order, from the initial state (the initial state itself should a call
have undefined behaviour, which `run` reports). -/
def after (c : Config) (policy : Int) (trace : List Nat) : State :=
  (run c policy (initial c) trace).getD (initial c)

/-- Number of frames marked occupied in `frame_usage`. -/
def occupied_frames (c : Config) (s : State) : Nat :=
  ((List.range c.FRAME_COUNT).filter (fun i => decide (s.frame_usage i ≠ 0))).length

/-- Number of page-table entries with `valid == true`. -/
def valid_pages (c : Config) (s : State) : Nat :=
  ((List.range c.PAGE_TABLE_SIZE).filter (fun i => (s.page_table i).valid)).length

/-- A trace touching the 64 pages 64, ..., 127 once each (addresses `0x40000`, ...,
`0x7F000`). -/
def fill_trace : List Nat := (List.range 64).map (fun i => (64 + i) <<< 12)

/-- A trace touching the 63 pages 64, ..., 126 and then page 0. -/
def fill_trace_zero : List Nat := (List.range 63).map (fun i => (64 + i) <<< 12) ++ [0x0]

/-- The configuration of main.c with `FRAME_COUNT` reduced to a single frame (the
end-to-end scenario of the specification). -/
def single_frame_config : Config := { source_config with FRAME_COUNT := 1 }

/-- The size of a page, `#define PAGE_SIZE 4096` (the code itself shifts by 12 and masks
with `0xFFF`). -/
def PAGE_SIZE : Nat := 4096

/-! ## Reading the trace and `main` -/

/-- What a call `fscanf(file, "%x %c", &address, &type)` finds next in the trace file. -/
inductive Record where
  /-- a hexadecimal number followed by a character: both conversions succeed -/
  | entry (address : Nat) (type : Char)
  /-- a hexadecimal number followed by the end of the file: one conversion succeeds -/
  | truncated (address : Nat)
  /-- characters that are not a hexadecimal number: no conversion succeeds -/
  | malformed

/-- The value of the macro `EOF` of `<stdio.h>`. -/
def EOF : Int := -1

/-- The C library call `fscanf(file, "%x %c", &address, &type)` (ISO C, 7.21.6.2), on a
file given by the records still unread: the value returned (the number of conversions
made, or `EOF` at the end of the file), the value stored in `address` if the first
conversion succeeded, and the records left unread.  After a matching failure the
offending characters remain unread. -/
def fscanf (file : List Record) : Int × Option Nat × List Record :=
  match file with
  | [] => (EOF, none, [])
  | Record.entry address _ :: rest => (2, some address, rest)
  | Record.truncated address :: _ => (1, some address, [])
  | Record.malformed :: rest => (0, none, Record.malformed :: rest)

/-- How a call of a function that may not return ends. -/
inductive Outcome (α : Type) where
  /-- the function returned -/
  | returned (value : α)
  /-- the function ended the process with `exit(code)` -/
  | exited (code : Int)
  /-- the C standard does not define the behaviour (here: an argument that is absent is
  read, an indeterminate value is used, or `process_address` has undefined behaviour) -/
  | undefined
  /-- the loop was still running when the fuel ran out -/
  | out_of_fuel

/-- The `while` loop of `read_trace_file`, bounded by fuel: `file` is the unread part of
the trace, `address` the local variable (`none` while it has never been assigned). -/
def read_trace_loop (c : Config) (policy : Int) :
    Nat → List Record → Option Nat → State → Outcome State
  | 0, _, _, _ => Outcome.out_of_fuel
  | fuel + 1, file, address, s =>
    if (fscanf file).1 ≠ EOF then
      match (match (fscanf file).2.1 with
             | some stored => some stored
             | none => address) with
      | none => Outcome.undefined
      | some a =>
        match process_address c s a policy with
        | none => Outcome.undefined
        | some (s1, _) => read_trace_loop c policy fuel (fscanf file).2.2 (some a) s1
    else Outcome.returned s

/-- Translation of `read_trace_file`; `fopen filename` is the content of the file, or
`none` when it cannot be opened. -/
def read_trace_file (c : Config) (fopen : String → Option (List Record)) (filename : String)
    (policy : Int) (fuel : Nat) (s : State) : Outcome State :=
  match fopen filename with
  | none => Outcome.exited 1
  | some file => read_trace_loop c policy fuel file none s

/-- What `main` has done when it returns. -/
structure MainResult where
  /-- the value returned by `main` -/
  exit_code : Int
  /-- the global variables at that point -/
  state : State
  /-- the file name passed to `read_trace_file`, if it was called -/
  trace : Option String
  /-- the statistics printed at the end: `page_faults`, `tlb_hits`, `tlb_miss` -/
  reported : Option (Int × Int × Int)

/-- Translation of `main`; `argv` lists the `argc` arguments, and `atoi` is the C library
function.  Reading `argv[2]` when `argc < 3` (a null pointer, or an element outside
`argv`) and passing it to `atoi` is undefined. -/
def main (c : Config) (atoi : String → Int) (fopen : String → Option (List Record))
    (fuel : Nat) (argv : List String) : Outcome MainResult :=
  match argv[2]? with
  | none => Outcome.undefined
  | some selector =>
    let policy := atoi selector
    if argv.length ≠ 3 then
      Outcome.returned { exit_code := 1, state := zero_state, trace := none, reported := none }
    else if policy ≠ 0 ∧ policy ≠ 1 then
      Outcome.returned { exit_code := 1, state := zero_state, trace := none, reported := none }
    else
      match argv[1]? with
      | none => Outcome.undefined
      | some filename =>
        match read_trace_file c fopen filename policy fuel
            (init_tlb c (init_page_table c zero_state)) with
        | Outcome.returned s =>
          Outcome.returned
            { exit_code := 0, state := s, trace := some filename
              reported := some (s.page_faults, s.tlb_hits, s.tlb_miss) }
        | Outcome.exited code => Outcome.exited code
        | Outcome.undefined => Outcome.undefined
        | Outcome.out_of_fuel => Outcome.out_of_fuel

/-! # Properties -/

/-! ## Elementary facts -/

@[simp] theorem store_same {α : Type} (a : Nat → α) (i : Nat) (v : α) : store a i v i = v := by
  simp [store]

theorem store_other {α : Type} (a : Nat → α) {i j : Nat} (v : α) (h : j ≠ i) :
    store a i v j = a j := by
  simp [store, h]

theorem store_apply {α : Type} (a : Nat → α) (i j : Nat) (v : α) :
    store a i v j = if j = i then v else a j := rfl

theorem toInt32_of_lt {x : Nat} (h : x < 2 ^ 31) : toInt32 x = (x : Int) := by
  unfold toInt32
  split <;> omega

theorem toUInt32_natCast {x : Nat} (h : x < 2 ^ 32) : toUInt32 (x : Int) = x := by
  unfold toUInt32
  have : ((x : Int) % 2 ^ 32) = (x : Int) := Int.emod_eq_of_lt (by omega) (by omega)
  rw [this]; simp

theorem toInt32_ne_neg_one {x : Nat} (h : x < 2 ^ 31) : toInt32 x ≠ -1 := by
  rw [toInt32_of_lt h]; omega

/-! ## The loops -/

/-- What `search_tlb` computes: `-1` when no valid slot in the scanned range holds the
page, and otherwise the frame of the first valid slot that holds it. -/
theorem search_tlb_loop_spec (tlb : Nat → TLBEntry) (p : Nat) (n i : Nat) :
    (search_tlb_loop tlb p n i = -1 ∧
        ∀ j, i ≤ j → j < i + n → ¬ ((tlb j).valid = true ∧ (tlb j).page_number = p)) ∨
    (∃ j, i ≤ j ∧ j < i + n ∧ (tlb j).valid = true ∧ (tlb j).page_number = p ∧
        search_tlb_loop tlb p n i = toInt32 (tlb j).frame_number ∧
        ∀ k, i ≤ k → k < j → ¬ ((tlb k).valid = true ∧ (tlb k).page_number = p)) := by
  induction n generalizing i with
  | zero => left; exact ⟨rfl, fun j h1 h2 => by omega⟩
  | succ n ih =>
    by_cases h : (tlb i).valid = true ∧ (tlb i).page_number = p
    · right
      refine ⟨i, le_refl _, by omega, h.1, h.2, ?_, fun k h1 h2 => by omega⟩
      simp [search_tlb_loop, h.1, h.2]
    · have hstep : search_tlb_loop tlb p (n + 1) i = search_tlb_loop tlb p n (i + 1) := by
        have : ((tlb i).valid && (tlb i).page_number == p) = false := by
          by_cases hv : (tlb i).valid = true
          · have : (tlb i).page_number ≠ p := fun e => h ⟨hv, e⟩
            simp [hv, this]
          · simp [hv]
        simp [search_tlb_loop, this]
      rcases ih (i + 1) with ⟨h1, h2⟩ | ⟨j, h1, h2, h3, h4, h5, h6⟩
      · left
        refine ⟨by rw [hstep]; exact h1, fun j hj1 hj2 => ?_⟩
        by_cases e : j = i
        · subst e; exact h
        · exact h2 j (by omega) (by omega)
      · right
        refine ⟨j, by omega, by omega, h3, h4, by rw [hstep]; exact h5, fun k hk1 hk2 => ?_⟩
        by_cases e : k = i
        · subst e; exact h
        · exact h6 k (by omega) hk2

/-- What `find_free_frame` computes: the lowest free index of the scanned range, and
`-1` when the range holds none. -/
theorem find_free_frame_loop_spec (fu : Nat → Int) (n i : Nat) :
    (find_free_frame_loop fu n i = -1 ∧ ∀ j, i ≤ j → j < i + n → fu j ≠ 0) ∨
    (∃ j, i ≤ j ∧ j < i + n ∧ fu j = 0 ∧ find_free_frame_loop fu n i = (j : Int) ∧
        ∀ k, i ≤ k → k < j → fu k ≠ 0) := by
  induction n generalizing i with
  | zero => left; exact ⟨rfl, fun j h1 h2 => by omega⟩
  | succ n ih =>
    by_cases h : fu i = 0
    · right
      exact ⟨i, le_refl _, by omega, h, by simp [find_free_frame_loop, h],
        fun k h1 h2 => by omega⟩
    · have hstep : find_free_frame_loop fu (n + 1) i = find_free_frame_loop fu n (i + 1) := by
        simp [find_free_frame_loop, h]
      rcases ih (i + 1) with ⟨h1, h2⟩ | ⟨j, h1, h2, h3, h4, h5⟩
      · left
        refine ⟨by rw [hstep]; exact h1, fun j hj1 hj2 => ?_⟩
        by_cases e : j = i
        · subst e; exact h
        · exact h2 j (by omega) (by omega)
      · right
        refine ⟨j, by omega, by omega, h3, by rw [hstep]; exact h4, fun k hk1 hk2 => ?_⟩
        by_cases e : k = i
        · subst e; exact h
        · exact h5 k (by omega) hk2

/-- What the scan of `lru_replacement` computes: `oldest` stays `-1` when no valid
entry has a counter below `INT_MAX`; otherwise it is the lowest index among the valid
entries with the least counter. -/
theorem lru_scan_spec (pt : Nat → PageTableEntry) (k : Nat) :
    (lru_scan pt k = (-1, INT_MAX) ∧
        ∀ i, i < k → (pt i).valid = true → INT_MAX ≤ (pt i).lru_counter) ∨
    (∃ j, j < k ∧ (pt j).valid = true ∧ (pt j).lru_counter < INT_MAX ∧
        lru_scan pt k = ((j : Int), (pt j).lru_counter) ∧
        (∀ i, i < k → (pt i).valid = true → (pt j).lru_counter ≤ (pt i).lru_counter) ∧
        (∀ i, i < j → (pt i).valid = true → (pt j).lru_counter < (pt i).lru_counter)) := by
  induction k with
  | zero => left; exact ⟨rfl, fun i h => by omega⟩
  | succ k ih =>
    rcases ih with ⟨h1, h2⟩ | ⟨j, hj, hv, hlt, heq, hmin, hfirst⟩
    · by_cases hk : (pt k).valid = true ∧ (pt k).lru_counter < INT_MAX
      · right
        refine ⟨k, by omega, hk.1, hk.2, ?_, ?_, ?_⟩
        · simp [lru_scan, h1, hk.1, hk.2]
        · intro i hi hvi
          by_cases e : i = k
          · subst e; exact le_refl _
          · have := h2 i (by omega) hvi; omega
        · intro i hi hvi
          have := h2 i hi hvi; omega
      · left
        refine ⟨?_, ?_⟩
        · have : ((pt k).valid && decide ((pt k).lru_counter < INT_MAX)) = false := by
            by_cases hv : (pt k).valid = true
            · have : ¬ (pt k).lru_counter < INT_MAX := fun e => hk ⟨hv, e⟩
              simp [hv, this]
            · simp [hv]
          simp [lru_scan, h1, this]
        · intro i hi hvi
          by_cases e : i = k
          · subst e
            by_contra hc
            exact hk ⟨hvi, by omega⟩
          · exact h2 i (by omega) hvi
    · by_cases hk : (pt k).valid = true ∧ (pt k).lru_counter < (pt j).lru_counter
      · right
        refine ⟨k, by omega, hk.1, by omega, ?_, ?_, ?_⟩
        · simp [lru_scan, heq, hk.1, hk.2]
        · intro i hi hvi
          by_cases e : i = k
          · subst e; exact le_refl _
          · have := hmin i (by omega) hvi; omega
        · intro i hi hvi
          have := hmin i hi hvi; omega
      · right
        refine ⟨j, by omega, hv, hlt, ?_, ?_, hfirst⟩
        · have : ((pt k).valid && decide ((pt k).lru_counter < (pt j).lru_counter)) = false := by
            by_cases hv : (pt k).valid = true
            · have : ¬ (pt k).lru_counter < (pt j).lru_counter := fun e => hk ⟨hv, e⟩
              simp [hv, this]
            · simp [hv]
          simp [lru_scan, heq, this]
        · intro i hi hvi
          by_cases e : i = k
          · subst e
            by_contra hc
            exact hk ⟨hvi, by omega⟩
          · exact hmin i (by omega) hvi

/-! ## Second-Chance scan -/

theorem SameButReference.rfl (e : PageTableEntry) : SameButReference e e :=
  ⟨Eq.refl _, Eq.refl _, Eq.refl _, Eq.refl _⟩

theorem second_chance_loop_stop (c : Config) (fuel : Nat) (pt : Nat → PageTableEntry) (q : Nat)
    (h : (pt q).reference = false) :
    second_chance_loop c (fuel + 1) pt q = some (pt, q, toInt32 (pt q).frame_number) := by
  simp [second_chance_loop, h]

theorem second_chance_loop_advance (c : Config) (fuel : Nat) (pt : Nat → PageTableEntry) (q : Nat)
    (h : (pt q).reference = true) :
    second_chance_loop c (fuel + 1) pt q =
      second_chance_loop c fuel (store pt q { pt q with reference := false })
        ((q + 1) % c.PAGE_TABLE_SIZE) := by
  simp [second_chance_loop, h]

/-- More fuel does not change a result already reached. -/
theorem second_chance_loop_mono (c : Config) (fuel extra : Nat) :
    ∀ (pt : Nat → PageTableEntry) (q : Nat) (r : (Nat → PageTableEntry) × Nat × Int),
      second_chance_loop c fuel pt q = some r →
      second_chance_loop c (fuel + extra) pt q = some r := by
  induction fuel with
  | zero => intro pt q r h; simp [second_chance_loop] at h
  | succ f ih =>
    intro pt q r h
    have e : f + 1 + extra = (f + extra) + 1 := by omega
    rw [e]
    by_cases hr : (pt q).reference = true
    · rw [second_chance_loop_advance c _ pt q hr] at h ⊢
      exact ih _ _ _ h
    · have hr2 : (pt q).reference = false := by simpa using hr
      rw [second_chance_loop_stop c _ pt q hr2] at h ⊢
      exact h

/-- If the entry `d` positions ahead of the cursor has a clear reference bit, the scan
stops after exactly `k ≤ d` advances, at an entry whose reference bit is clear, having
changed nothing but reference bits. -/
theorem second_chance_loop_reaches (c : Config) (hN : 0 < c.PAGE_TABLE_SIZE) (d : Nat) :
    ∀ (pt : Nat → PageTableEntry) (q : Nat), q < c.PAGE_TABLE_SIZE →
      (pt ((q + d) % c.PAGE_TABLE_SIZE)).reference = false →
      ∃ k pt1 q1, k ≤ d ∧ second_chance_loop c k pt q = none ∧
        second_chance_loop c (k + 1) pt q = some (pt1, q1, toInt32 (pt1 q1).frame_number) ∧
        (pt1 q1).reference = false ∧ q1 < c.PAGE_TABLE_SIZE ∧
        q1 = (q + k) % c.PAGE_TABLE_SIZE ∧
        ∀ i, SameButReference (pt1 i) (pt i) := by
  induction d with
  | zero =>
    intro pt q hq h
    have hq0 : (q + 0) % c.PAGE_TABLE_SIZE = q := by simp [Nat.mod_eq_of_lt hq]
    rw [hq0] at h
    exact ⟨0, pt, q, le_refl _, rfl, second_chance_loop_stop c 0 pt q h, h, hq,
      hq0.symm, fun i => SameButReference.rfl _⟩
  | succ d ih =>
    intro pt q hq h
    by_cases hr : (pt q).reference = true
    · have hq1 : (q + 1) % c.PAGE_TABLE_SIZE < c.PAGE_TABLE_SIZE := Nat.mod_lt _ hN
      have hpos : ((q + 1) % c.PAGE_TABLE_SIZE + d) % c.PAGE_TABLE_SIZE =
          (q + (d + 1)) % c.PAGE_TABLE_SIZE := by
        rw [Nat.mod_add_mod]; congr 1; omega
      have hclear : ((store pt q { pt q with reference := false })
          (((q + 1) % c.PAGE_TABLE_SIZE + d) % c.PAGE_TABLE_SIZE)).reference = false := by
        rw [hpos, store_apply]
        split
        · rfl
        · exact h
      obtain ⟨k, pt1, q1, hk, hnone, hsome, hrf, hq1lt, hq1eq, hsame⟩ :=
        ih (store pt q { pt q with reference := false }) ((q + 1) % c.PAGE_TABLE_SIZE) hq1 hclear
      refine ⟨k + 1, pt1, q1, by omega, ?_, ?_, hrf, hq1lt, ?_, ?_⟩
      · rw [second_chance_loop_advance c _ pt q hr]; exact hnone
      · rw [second_chance_loop_advance c _ pt q hr]; exact hsome
      · rw [hq1eq, Nat.mod_add_mod]; congr 1; omega
      · intro i
        have h1 := hsame i
        rw [store_apply] at h1
        split at h1
        · rename_i e; subst e; exact h1
        · exact h1
    · have hr2 : (pt q).reference = false := by simpa using hr
      exact ⟨0, pt, q, by omega, rfl, second_chance_loop_stop c 0 pt q hr2, hr2, hq,
        by simp [Nat.mod_eq_of_lt hq], fun i => SameButReference.rfl _⟩

/-- The scan of `second_chance_replacement` stops after at most `PAGE_TABLE_SIZE`
advances of the cursor, whatever the reference bits are. -/
theorem second_chance_loop_terminates (c : Config) (hN : 0 < c.PAGE_TABLE_SIZE)
    (pt : Nat → PageTableEntry) (q : Nat) (hq : q < c.PAGE_TABLE_SIZE) :
    ∃ k pt1 q1, k ≤ c.PAGE_TABLE_SIZE ∧ second_chance_loop c k pt q = none ∧
      second_chance_loop c (k + 1) pt q = some (pt1, q1, toInt32 (pt1 q1).frame_number) ∧
      (pt1 q1).reference = false ∧ q1 < c.PAGE_TABLE_SIZE ∧
      q1 = (q + k) % c.PAGE_TABLE_SIZE ∧
      ∀ i, SameButReference (pt1 i) (pt i) := by
  by_cases hr : (pt q).reference = true
  · -- after the first advance the start position is clear, `PAGE_TABLE_SIZE - 1` ahead
    have hq1 : (q + 1) % c.PAGE_TABLE_SIZE < c.PAGE_TABLE_SIZE := Nat.mod_lt _ hN
    have hpos :
        ((q + 1) % c.PAGE_TABLE_SIZE + (c.PAGE_TABLE_SIZE - 1)) % c.PAGE_TABLE_SIZE = q := by
      rw [Nat.mod_add_mod]
      have : q + 1 + (c.PAGE_TABLE_SIZE - 1) = q + c.PAGE_TABLE_SIZE := by omega
      rw [this, Nat.add_mod_right, Nat.mod_eq_of_lt hq]
    have hclear : ((store pt q { pt q with reference := false })
        (((q + 1) % c.PAGE_TABLE_SIZE + (c.PAGE_TABLE_SIZE - 1)) % c.PAGE_TABLE_SIZE)).reference
          = false := by
      rw [hpos]; simp
    obtain ⟨k, pt1, q1, hk, hnone, hsome, hrf, hq1lt, hq1eq, hsame⟩ :=
      second_chance_loop_reaches c hN (c.PAGE_TABLE_SIZE - 1)
        (store pt q { pt q with reference := false }) ((q + 1) % c.PAGE_TABLE_SIZE) hq1 hclear
    refine ⟨k + 1, pt1, q1, by omega, ?_, ?_, hrf, hq1lt, ?_, ?_⟩
    · rw [second_chance_loop_advance c _ pt q hr]; exact hnone
    · rw [second_chance_loop_advance c _ pt q hr]; exact hsome
    · rw [hq1eq, Nat.mod_add_mod]; congr 1; omega
    · intro i
      have h1 := hsame i
      rw [store_apply] at h1
      split at h1
      · rename_i e; subst e; exact h1
      · exact h1
  · have hr2 : (pt q).reference = false := by simpa using hr
    exact ⟨0, pt, q, by omega, rfl, second_chance_loop_stop c 0 pt q hr2, hr2, hq,
      by simp [Nat.mod_eq_of_lt hq], fun i => SameButReference.rfl _⟩

/-- The function `second_chance_replacement` always returns when the cursor is inside the
table: it yields the frame number stored at the final cursor, the entry there has a clear
reference bit, and only reference bits and the cursor have changed. -/
theorem second_chance_replacement_spec (c : Config) (hN : 0 < c.PAGE_TABLE_SIZE)
    (s : State) (hq : s.pointer < c.PAGE_TABLE_SIZE) :
    ∃ s1 : State, second_chance_replacement c s =
        some (s1, toInt32 (s1.page_table s1.pointer).frame_number) ∧
      (s1.page_table s1.pointer).reference = false ∧ s1.pointer < c.PAGE_TABLE_SIZE ∧
      (∀ i, SameButReference (s1.page_table i) (s.page_table i)) ∧
      s1.tlb = s.tlb ∧ s1.frame_usage = s.frame_usage ∧ s1.lru_counter = s.lru_counter ∧
      s1.tlb_miss = s.tlb_miss ∧ s1.tlb_hits = s.tlb_hits ∧ s1.page_faults = s.page_faults ∧
      s1.tlb_index = s.tlb_index := by
  obtain ⟨k, pt1, q1, hk, _, hsome, hrf, hq1lt, _, hsame⟩ :=
    second_chance_loop_terminates c hN s.page_table s.pointer hq
  have hfuel := second_chance_loop_mono c (k + 1) (c.PAGE_TABLE_SIZE - k) _ _ _ hsome
  have e : k + 1 + (c.PAGE_TABLE_SIZE - k) = c.PAGE_TABLE_SIZE + 1 := by omega
  rw [e] at hfuel
  refine ⟨{ s with page_table := pt1, pointer := q1 }, ?_, hrf, hq1lt, hsame,
    rfl, rfl, rfl, rfl, rfl, rfl, rfl⟩
  simp [second_chance_replacement, hfuel]

/-! ## Case analysis of `handle_page_fault` and `process_address` -/

theorem handle_page_fault_free (c : Config) (s : State) (p : Nat) (policy : Int) (f : Nat)
    (hf : f < c.FRAME_COUNT) (h32 : c.FRAME_COUNT ≤ 2 ^ 31)
    (hfree : find_free_frame c s = (f : Int)) :
    handle_page_fault c s p policy = some (bind_frame c s p f) := by
  have h1 : ¬ ((f : Int) = -1) := by omega
  have h2 : (0 : Int) ≤ (f : Int) ∧ (f : Int) < (c.FRAME_COUNT : Int) := by omega
  have h3 : toUInt32 (f : Int) = f := toUInt32_natCast (by omega)
  simp [handle_page_fault, hfree, h1, h2, h3, bind_frame, update_tlb]

theorem handle_page_fault_victim (c : Config) (s s1 : State) (p : Nat) (policy : Int)
    (v f : Nat) (hv : v < c.PAGE_TABLE_SIZE) (hf : f < c.FRAME_COUNT)
    (h32 : c.FRAME_COUNT ≤ 2 ^ 31)
    (hfree : find_free_frame c s = -1)
    (hsel : (if policy = 0 then (lru_replacement c s).map (fun r => (s, r))
             else second_chance_replacement c s) = some (s1, (v : Int)))
    (hfr : toInt32 (s1.page_table v).frame_number = (f : Int)) :
    handle_page_fault c s p policy = some (bind_frame c (evict s1 v) p f) := by
  have h2 : (0 : Int) ≤ (f : Int) ∧ (f : Int) < (c.FRAME_COUNT : Int) := by omega
  have h3 : toUInt32 (f : Int) = f := toUInt32_natCast (by omega)
  have h4 : (0 : Int) ≤ (v : Int) ∧ (v : Int) < (c.PAGE_TABLE_SIZE : Int) := by omega
  simp only [handle_page_fault, hfree, if_true, hsel]
  simp [h2, h3, h4, hfr, bind_frame, update_tlb, evict]

/-- Every successful call of `handle_page_fault` either takes the frame found free, or
evicts the page whose number the replacement function returned and takes the frame
number stored in that entry. -/
theorem handle_page_fault_cases (c : Config) (s s2 : State) (p : Nat) (policy : Int)
    (h32 : c.FRAME_COUNT ≤ 2 ^ 31)
    (h : handle_page_fault c s p policy = some s2) :
    (∃ f : Nat, f < c.FRAME_COUNT ∧ find_free_frame c s = (f : Int) ∧
        s2 = bind_frame c s p f) ∨
    (find_free_frame c s = -1 ∧ ∃ (s1 : State) (v f : Nat),
        v < c.PAGE_TABLE_SIZE ∧ f < c.FRAME_COUNT ∧
        (if policy = 0 then (lru_replacement c s).map (fun r => (s, r))
         else second_chance_replacement c s) = some (s1, (v : Int)) ∧
        toInt32 (s1.page_table v).frame_number = (f : Int) ∧
        s2 = bind_frame c (evict s1 v) p f) := by
  by_cases hfree : find_free_frame c s = -1
  · right
    refine ⟨hfree, ?_⟩
    cases hsel : (if policy = 0 then (lru_replacement c s).map (fun r => (s, r))
             else second_chance_replacement c s) with
    | none =>
      simp only [handle_page_fault, hfree, if_true, hsel] at h
      simp at h
    | some r =>
      obtain ⟨s1, vi⟩ := r
      by_cases hvi : 0 ≤ vi ∧ vi < (c.PAGE_TABLE_SIZE : Int)
      · obtain ⟨v, rfl⟩ := Int.eq_ofNat_of_zero_le hvi.1
        have hv : v < c.PAGE_TABLE_SIZE := by omega
        by_cases hfi : 0 ≤ toInt32 (s1.page_table v).frame_number ∧
            toInt32 (s1.page_table v).frame_number < (c.FRAME_COUNT : Int)
        · obtain ⟨f, hf⟩ := Int.eq_ofNat_of_zero_le hfi.1
          have hflt : f < c.FRAME_COUNT := by omega
          refine ⟨s1, v, f, hv, hflt, rfl, hf, ?_⟩
          have := handle_page_fault_victim c s s1 p policy v f hv hflt h32 hfree hsel hf
          rw [this] at h
          exact (Option.some.inj h).symm
        · simp only [handle_page_fault, hfree, if_true, hsel] at h
          simp [hvi, hfi] at h
      · simp only [handle_page_fault, hfree, if_true, hsel] at h
        simp [hvi] at h
  · left
    by_cases hfi : 0 ≤ find_free_frame c s ∧ find_free_frame c s < (c.FRAME_COUNT : Int)
    · obtain ⟨f, hf⟩ := Int.eq_ofNat_of_zero_le hfi.1
      have hflt : f < c.FRAME_COUNT := by omega
      refine ⟨f, hflt, hf, ?_⟩
      have := handle_page_fault_free c s p policy f hflt h32 hf
      rw [this] at h
      exact (Option.some.inj h).symm
    · simp [handle_page_fault, hfree, hfi] at h

theorem process_address_hit (c : Config) (s : State) (a : Nat) (policy : Int)
    (hp : a >>> 12 < c.PAGE_TABLE_SIZE) (hit : search_tlb c s (a >>> 12) ≠ -1)
    (hctr : policy = 0 → s.lru_counter < INT_MAX) :
    process_address c s a policy =
      some (touch (count_hit s) (a >>> 12) policy,
            physical_address (search_tlb c s (a >>> 12)) a) := by
  by_cases hpol : policy = 0
  · have := hctr hpol
    simp [process_address, hp, hit, hpol, this, touch, count_hit, physical_address]
  · simp [process_address, hp, hit, hpol, touch, count_hit, physical_address]

theorem process_address_resident_miss (c : Config) (s : State) (a : Nat) (policy : Int)
    (hp : a >>> 12 < c.PAGE_TABLE_SIZE) (miss : search_tlb c s (a >>> 12) = -1)
    (hres : (s.page_table (a >>> 12)).valid = true)
    (hctr : policy = 0 → s.lru_counter < INT_MAX) :
    process_address c s a policy =
      some (touch (update_tlb c (count_miss s) (a >>> 12)
              (toUInt32 (toInt32 (s.page_table (a >>> 12)).frame_number))) (a >>> 12) policy,
            physical_address (toInt32 (s.page_table (a >>> 12)).frame_number) a) := by
  by_cases hpol : policy = 0
  · have := hctr hpol
    simp [process_address, hp, miss, hres, hpol, this, touch, count_miss, physical_address,
      update_tlb]
  · simp [process_address, hp, miss, hres, hpol, touch, count_miss, physical_address,
      update_tlb]

theorem process_address_fault (c : Config) (s s2 : State) (a : Nat) (policy : Int)
    (hp : a >>> 12 < c.PAGE_TABLE_SIZE) (miss : search_tlb c s (a >>> 12) = -1)
    (hres : (s.page_table (a >>> 12)).valid = false)
    (hpf : handle_page_fault c (count_miss s) (a >>> 12) policy = some s2)
    (hctr : policy = 0 → s2.lru_counter < INT_MAX) :
    process_address c s a policy =
      some (touch (update_tlb c s2 (a >>> 12)
              (toUInt32 (toInt32 (s2.page_table (a >>> 12)).frame_number))) (a >>> 12) policy,
            physical_address (toInt32 (s2.page_table (a >>> 12)).frame_number) a) := by
  have hpf1 : handle_page_fault c { s with tlb_miss := s.tlb_miss + 1 } (a >>> 12) policy
      = some s2 := hpf
  by_cases hpol : policy = 0
  · have := hctr hpol
    subst hpol
    simp [process_address, hp, miss, hres, hpf1, this, touch, physical_address, update_tlb]
  · simp [process_address, hp, miss, hres, hpf1, hpol, touch, physical_address, update_tlb]

/-- Every successful call of `process_address` is a TLB hit, a TLB miss on a resident
page, or a TLB miss with a page fault. -/
theorem process_address_cases (c : Config) (s s4 : State) (a physical : Nat) (policy : Int)
    (h : process_address c s a policy = some (s4, physical)) :
    a >>> 12 < c.PAGE_TABLE_SIZE ∧
    ((search_tlb c s (a >>> 12) ≠ -1 ∧ (policy = 0 → s.lru_counter < INT_MAX) ∧
        s4 = touch (count_hit s) (a >>> 12) policy ∧
        physical = physical_address (search_tlb c s (a >>> 12)) a) ∨
     (search_tlb c s (a >>> 12) = -1 ∧ (s.page_table (a >>> 12)).valid = true ∧
        (policy = 0 → s.lru_counter < INT_MAX) ∧
        s4 = touch (update_tlb c (count_miss s) (a >>> 12)
              (toUInt32 (toInt32 (s.page_table (a >>> 12)).frame_number))) (a >>> 12) policy ∧
        physical = physical_address (toInt32 (s.page_table (a >>> 12)).frame_number) a) ∨
     (search_tlb c s (a >>> 12) = -1 ∧ (s.page_table (a >>> 12)).valid = false ∧
        ∃ s2, handle_page_fault c (count_miss s) (a >>> 12) policy = some s2 ∧
          (policy = 0 → s2.lru_counter < INT_MAX) ∧
          s4 = touch (update_tlb c s2 (a >>> 12)
              (toUInt32 (toInt32 (s2.page_table (a >>> 12)).frame_number))) (a >>> 12) policy ∧
          physical = physical_address (toInt32 (s2.page_table (a >>> 12)).frame_number) a)) := by
  have hp : a >>> 12 < c.PAGE_TABLE_SIZE := by
    by_contra hc
    simp [process_address, hc] at h
  refine ⟨hp, ?_⟩
  by_cases hit : search_tlb c s (a >>> 12) = -1
  · right
    by_cases hres : (s.page_table (a >>> 12)).valid = true
    · left
      have hctr : policy = 0 → s.lru_counter < INT_MAX := by
        intro hpol
        by_contra hc
        subst hpol
        simp [process_address, hp, hit, hres, update_tlb, hc] at h
      rw [process_address_resident_miss c s a policy hp hit hres hctr] at h
      have h1 := Option.some.inj h
      exact ⟨hit, hres, hctr, (congrArg Prod.fst h1).symm, (congrArg Prod.snd h1).symm⟩
    · right
      have hres2 : (s.page_table (a >>> 12)).valid = false := by simpa using hres
      refine ⟨hit, hres2, ?_⟩
      cases hpf : handle_page_fault c (count_miss s) (a >>> 12) policy with
      | none =>
        have hpf1 : handle_page_fault c { s with tlb_miss := s.tlb_miss + 1 } (a >>> 12) policy
          = none := hpf
        simp [process_address, hp, hit, hres2, hpf1] at h
      | some s2 =>
        have hctr : policy = 0 → s2.lru_counter < INT_MAX := by
          intro hpol
          by_contra hc
          have hpf1 : handle_page_fault c { s with tlb_miss := s.tlb_miss + 1 } (a >>> 12) policy
            = some s2 := hpf
          subst hpol
          simp [process_address, hp, hit, hres2, hpf1, update_tlb, hc] at h
        rw [process_address_fault c s s2 a policy hp hit hres2 hpf hctr] at h
        have h1 := Option.some.inj h
        exact ⟨s2, rfl, hctr, (congrArg Prod.fst h1).symm, (congrArg Prod.snd h1).symm⟩
  · left
    have hctr : policy = 0 → s.lru_counter < INT_MAX := by
      intro hpol
      by_contra hc
      subst hpol
      simp [process_address, hp, hit, hc] at h
    rw [process_address_hit c s a policy hp hit hctr] at h
    have h1 := Option.some.inj h
    exact ⟨hit, hctr, (congrArg Prod.fst h1).symm, (congrArg Prod.snd h1).symm⟩

/-! ## What the elementary updates leave unchanged -/

@[simp] theorem touch_valid (s : State) (p : Nat) (policy : Int) (i : Nat) :
    ((touch s p policy).page_table i).valid = (s.page_table i).valid := by
  unfold touch; split <;> simp only [store_apply] <;> split <;> simp_all

@[simp] theorem touch_frame_number (s : State) (p : Nat) (policy : Int) (i : Nat) :
    ((touch s p policy).page_table i).frame_number = (s.page_table i).frame_number := by
  unfold touch; split <;> simp only [store_apply] <;> split <;> simp_all

@[simp] theorem touch_tlb (s : State) (p : Nat) (policy : Int) :
    (touch s p policy).tlb = s.tlb := by
  unfold touch; split <;> rfl

@[simp] theorem touch_frame_usage (s : State) (p : Nat) (policy : Int) :
    (touch s p policy).frame_usage = s.frame_usage := by
  unfold touch; split <;> rfl

@[simp] theorem touch_tlb_index (s : State) (p : Nat) (policy : Int) :
    (touch s p policy).tlb_index = s.tlb_index := by
  unfold touch; split <;> rfl

@[simp] theorem touch_pointer (s : State) (p : Nat) (policy : Int) :
    (touch s p policy).pointer = s.pointer := by
  unfold touch; split <;> rfl

@[simp] theorem touch_tlb_miss (s : State) (p : Nat) (policy : Int) :
    (touch s p policy).tlb_miss = s.tlb_miss := by
  unfold touch; split <;> rfl

@[simp] theorem touch_tlb_hits (s : State) (p : Nat) (policy : Int) :
    (touch s p policy).tlb_hits = s.tlb_hits := by
  unfold touch; split <;> rfl

@[simp] theorem touch_page_faults (s : State) (p : Nat) (policy : Int) :
    (touch s p policy).page_faults = s.page_faults := by
  unfold touch; split <;> rfl

theorem touch_counters (s : State) (p : Nat) (policy : Int)
    (h : ∀ i, (s.page_table i).lru_counter ≤ s.lru_counter) :
    ∀ i, ((touch s p policy).page_table i).lru_counter ≤ (touch s p policy).lru_counter := by
  intro i
  have h1 := h i
  have h2 := h p
  clear h
  unfold touch
  split <;> simp only [store_apply] <;> split <;> simp_all
  all_goals omega

/-! ## The invariant -/

theorem inv_initial (c : Config) (hc : c.WellFormed) : Inv c (initial c) := by
  obtain ⟨h1, h2, h3, h4, h5⟩ := hc
  refine ⟨?_, ?_, ?_, ?_, ?_, ?_, ?_⟩
  · intro i
    simp only [initial, init_tlb, init_page_table, zero_state]
    split <;> exact h1
  · exact Nat.lt_of_lt_of_le h1 h2
  · exact h4
  · exact Or.inl ⟨0, h1, rfl⟩
  · intro i
    simp only [initial, init_tlb, init_page_table, zero_state]
    split <;> exact le_refl _
  · intro j
    simp only [initial, init_tlb, init_page_table, zero_state]
    split <;> exact h1
  · intro j hj hv
    simp [initial, init_tlb, init_page_table, zero_state] at hv

theorem inv_count_miss {c : Config} {s : State} (h : Inv c s) : Inv c (count_miss s) :=
  ⟨h.frames_lt, h.pointer_lt, h.tlb_index_lt, h.resident, h.counters, h.tlb_frames,
    h.tlb_consistent⟩

theorem inv_count_hit {c : Config} {s : State} (h : Inv c s) : Inv c (count_hit s) :=
  ⟨h.frames_lt, h.pointer_lt, h.tlb_index_lt, h.resident, h.counters, h.tlb_frames,
    h.tlb_consistent⟩

theorem inv_touch {c : Config} {s : State} (h : Inv c s) (p : Nat) (policy : Int) :
    Inv c (touch s p policy) := by
  refine ⟨?_, ?_, ?_, ?_, touch_counters s p policy h.counters, ?_, ?_⟩
  · intro i; rw [touch_frame_number]; exact h.frames_lt i
  · rw [touch_pointer]; exact h.pointer_lt
  · rw [touch_tlb_index]; exact h.tlb_index_lt
  · rcases h.resident with ⟨i, h1, h2⟩ | ⟨i, h1, h2⟩
    · exact Or.inl ⟨i, h1, by rw [touch_frame_usage]; exact h2⟩
    · exact Or.inr ⟨i, h1, by rw [touch_valid]; exact h2⟩
  · intro j; rw [touch_tlb]; exact h.tlb_frames j
  · intro j hj hv hr
    rw [touch_tlb] at hv hr ⊢
    rw [touch_valid] at hr
    rw [touch_frame_number]
    exact h.tlb_consistent j hj hv hr

/-- Refilling the TLB with the frame the page table holds for the page keeps the
invariant. -/
theorem inv_update_tlb {c : Config} {s : State} (h : Inv c s) (hT : 0 < c.TLB_SIZE)
    (p : Nat) : Inv c (update_tlb c s p (s.page_table p).frame_number) := by
  refine ⟨h.frames_lt, h.pointer_lt, Nat.mod_lt _ hT, h.resident, h.counters, ?_, ?_⟩
  · intro j
    simp only [update_tlb, store_apply]
    split
    · exact h.frames_lt p
    · exact h.tlb_frames j
  · intro j hj
    simp only [update_tlb, store_apply]
    split
    · intro _ _; rfl
    · exact h.tlb_consistent j hj

/-- A miss of `search_tlb` in a state satisfying the invariant means that no valid slot
holds the page. -/
theorem search_tlb_miss {c : Config} {s : State} (h : Inv c s) (h31 : c.FRAME_COUNT ≤ 2 ^ 31)
    {p : Nat} (miss : search_tlb c s p = -1) :
    ∀ j, j < c.TLB_SIZE → ¬ ((s.tlb j).valid = true ∧ (s.tlb j).page_number = p) := by
  rcases search_tlb_loop_spec s.tlb p c.TLB_SIZE 0 with ⟨_, h2⟩ | ⟨j, _, _, _, _, h5, _⟩
  · intro j hj; exact h2 j (Nat.zero_le _) (by omega)
  · exfalso
    have hlt := h.tlb_frames j
    have : toInt32 (s.tlb j).frame_number ≠ -1 := toInt32_ne_neg_one (by omega)
    apply this
    rw [← h5]; exact miss

/-- A hit of `search_tlb` returns the frame number of a valid slot that holds the page. -/
theorem search_tlb_hit {c : Config} {s : State} {p : Nat} (hit : search_tlb c s p ≠ -1) :
    ∃ j, j < c.TLB_SIZE ∧ (s.tlb j).valid = true ∧ (s.tlb j).page_number = p ∧
      search_tlb c s p = toInt32 (s.tlb j).frame_number := by
  rcases search_tlb_loop_spec s.tlb p c.TLB_SIZE 0 with ⟨h1, _⟩ | ⟨j, _, h2, h3, h4, h5, _⟩
  · exact absurd h1 hit
  · exact ⟨j, by omega, h3, h4, h5⟩

/-- A page fault on a page that no valid TLB slot holds keeps the invariant and makes
the page resident. -/
theorem inv_handle_page_fault {c : Config} {s s2 : State} (h : Inv c s) (hc : c.WellFormed)
    {p : Nat} {policy : Int} (hp : p < c.PAGE_TABLE_SIZE)
    (hmiss : ∀ j, j < c.TLB_SIZE → ¬ ((s.tlb j).valid = true ∧ (s.tlb j).page_number = p))
    (hpf : handle_page_fault c s p policy = some s2) :
    Inv c s2 ∧ (s2.page_table p).valid = true ∧ s2.lru_counter = s.lru_counter := by
  obtain ⟨hF, hFP, hP31, hT, hT31⟩ := hc
  -- the state `s0` in which the frame is bound differs from `s` in reference bits, the
  -- cursor and lost validity only
  have key : ∃ (s0 : State) (f : Nat), f < c.FRAME_COUNT ∧ s2 = bind_frame c s0 p f ∧
      (∀ i, (s0.page_table i).frame_number = (s.page_table i).frame_number) ∧
      (∀ i, (s0.page_table i).lru_counter = (s.page_table i).lru_counter) ∧
      (∀ i, (s0.page_table i).valid = true → (s.page_table i).valid = true) ∧
      s0.pointer < c.PAGE_TABLE_SIZE ∧ s0.tlb = s.tlb ∧ s0.tlb_index = s.tlb_index ∧
      s0.lru_counter = s.lru_counter := by
    rcases handle_page_fault_cases c s s2 p policy (by omega) hpf with
      ⟨f, hf, _, rfl⟩ | ⟨_, s1, v, f, _, hf, hsel, _, rfl⟩
    · exact ⟨s, f, hf, rfl, fun _ => rfl, fun _ => rfl, fun _ hv => hv, h.pointer_lt, rfl, rfl,
        rfl⟩
    · have hs1 : (∀ i, SameButReference (s1.page_table i) (s.page_table i)) ∧
          s1.pointer < c.PAGE_TABLE_SIZE ∧ s1.tlb = s.tlb ∧ s1.tlb_index = s.tlb_index ∧
          s1.lru_counter = s.lru_counter := by
        by_cases hpol : policy = 0
        · rw [if_pos hpol] at hsel
          cases hl : lru_replacement c s with
          | none => rw [hl] at hsel; simp at hsel
          | some r =>
            rw [hl] at hsel
            simp only [Option.map_some', Option.some.injEq, Prod.mk.injEq] at hsel
            obtain ⟨rfl, _⟩ := hsel
            exact ⟨fun i => SameButReference.rfl _, h.pointer_lt, rfl, rfl, rfl⟩
        · rw [if_neg hpol] at hsel
          obtain ⟨s1', h1, _, h3, h4, h5, _, h7, _, _, _, h11⟩ :=
            second_chance_replacement_spec c (by omega) s h.pointer_lt
          rw [h1] at hsel
          simp only [Option.some.injEq, Prod.mk.injEq] at hsel
          obtain ⟨rfl, _⟩ := hsel
          exact ⟨h4, h3, h5, h11, h7⟩
      obtain ⟨hsame, hptr, htlb, hidx, hctr⟩ := hs1
      refine ⟨evict s1 v, f, hf, rfl, ?_, ?_, ?_, hptr, htlb, hidx, hctr⟩
      · intro i
        simp only [evict, store_apply]
        split
        · rename_i e; subst e; exact (hsame _).2.1
        · exact (hsame i).2.1
      · intro i
        simp only [evict, store_apply]
        split
        · rename_i e; subst e; exact (hsame _).2.2.2
        · exact (hsame i).2.2.2
      · intro i
        simp only [evict, store_apply]
        split
        · intro hv; simp at hv
        · intro hv; rw [← (hsame i).2.2.1]; exact hv
  obtain ⟨s0, f, hf, rfl, hfr, hlc, hval, hptr, htlb, hidx, hctr⟩ := key
  refine ⟨⟨?_, hptr, Nat.mod_lt _ hT, ?_, ?_, ?_, ?_⟩, ?_, hctr⟩
  · intro i
    simp only [bind_frame, store_apply]
    split
    · exact hf
    · rw [hfr]; exact h.frames_lt i
  · exact Or.inr ⟨p, hp, by simp [bind_frame]⟩
  · intro i
    simp only [bind_frame, store_apply]
    split
    · rename_i e; subst e; simp only; rw [hlc, hctr]; exact h.counters _
    · rw [hlc, hctr]; exact h.counters i
  · intro j
    simp only [bind_frame, store_apply]
    split
    · exact hf
    · rw [htlb]; exact h.tlb_frames j
  · intro j hj
    simp only [bind_frame]
    rw [store_apply]
    split
    · intro _ _; simp
    · rename_i hne
      rw [htlb]
      intro hv hr
      have hq : (s.tlb j).page_number ≠ p := fun e => hmiss j hj ⟨hv, e⟩
      rw [store_other _ _ hq] at hr ⊢
      rw [hfr]
      exact h.tlb_consistent j hj hv (hval _ hr)
  · simp [bind_frame]

theorem toUInt32_toInt32 {x : Nat} (h : x < 2 ^ 31) : toUInt32 (toInt32 x) = x := by
  rw [toInt32_of_lt h, toUInt32_natCast (by omega)]

/-- Each successful call of `process_address` keeps the invariant. -/
theorem inv_process_address {c : Config} {s s4 : State} {a physical : Nat} {policy : Int}
    (hc : c.WellFormed) (h : Inv c s)
    (hstep : process_address c s a policy = some (s4, physical)) : Inv c s4 := by
  have hF31 : c.FRAME_COUNT ≤ 2 ^ 31 := by
    obtain ⟨_, h2, h3, _, _⟩ := hc; omega
  have hT : 0 < c.TLB_SIZE := hc.2.2.2.1
  rcases process_address_cases c s s4 a physical policy hstep with
    ⟨hp, ⟨_, _, rfl, _⟩ | ⟨_, _, _, rfl, _⟩ | ⟨miss, _, s2, hpf, _, rfl, _⟩⟩
  · exact inv_touch (inv_count_hit h) _ _
  · have hlt := h.frames_lt (a >>> 12)
    rw [toUInt32_toInt32 (by omega)]
    exact inv_touch (inv_update_tlb (inv_count_miss h) hT _) _ _
  · have hm := search_tlb_miss h hF31 miss
    obtain ⟨h2, _, _⟩ := inv_handle_page_fault (inv_count_miss h) hc hp hm hpf
    have hlt := h2.frames_lt (a >>> 12)
    rw [toUInt32_toInt32 (by omega)]
    exact inv_touch (inv_update_tlb h2 hT _) _ _

/-- The invariant holds in every reachable state. -/
theorem reachable_inv {c : Config} {policy : Int} {s : State} (hc : c.WellFormed)
    (h : Reachable c policy s) : Inv c s := by
  induction h with
  | init => exact inv_initial c hc
  | step _ _ hstep ih => exact inv_process_address hc ih hstep

/-- In a state satisfying the invariant `handle_page_fault` returns, provided (under
LRU) that the clock has not reached `INT_MAX`. -/
theorem handle_page_fault_returns {c : Config} {s : State} (hc : c.WellFormed) (h : Inv c s)
    (p : Nat) (policy : Int) (hctr : policy = 0 → s.lru_counter < INT_MAX) :
    ∃ s2, handle_page_fault c s p policy = some s2 := by
  obtain ⟨hF, hFP, hP31, hT, hT31⟩ := hc
  rcases find_free_frame_loop_spec s.frame_usage c.FRAME_COUNT 0 with
    ⟨h1, h2⟩ | ⟨j, _, hj, _, h4, _⟩
  · -- no free frame: some page is resident and the replacement function finds a victim
    have hres : ∃ i, i < c.PAGE_TABLE_SIZE ∧ (s.page_table i).valid = true := by
      rcases h.resident with ⟨i, hi, hz⟩ | hr
      · exact absurd hz (h2 i (Nat.zero_le _) (by omega))
      · exact hr
    by_cases hpol : policy = 0
    · obtain ⟨i, hi, hv⟩ := hres
      rcases lru_scan_spec s.page_table c.PAGE_TABLE_SIZE with
        ⟨_, hno⟩ | ⟨j, hj, _, _, heq, _, _⟩
      · have h5 := hno i hi hv
        have h6 := h.counters i
        have h7 := hctr hpol
        omega
      · have hfj := h.frames_lt j
        have hl : lru_replacement c s = some ((((s.page_table j).frame_number : Nat) : Int)) := by
          have hlt31 : (s.page_table j).frame_number < 2 ^ 31 := by omega
          simp [lru_replacement, heq, toInt32_of_lt hlt31]
        have hfv := h.frames_lt (s.page_table j).frame_number
        exact ⟨_, handle_page_fault_victim c s s p policy (s.page_table j).frame_number
          (s.page_table (s.page_table j).frame_number).frame_number (by omega) hfv (by omega) h1
          (by rw [if_pos hpol, hl]; rfl) (toInt32_of_lt (by omega))⟩
    · obtain ⟨s1, hs1, _, hq, hsame, _⟩ :=
        second_chance_replacement_spec c (by omega) s h.pointer_lt
      have hfq : (s1.page_table s1.pointer).frame_number < c.FRAME_COUNT := by
        rw [(hsame _).2.1]; exact h.frames_lt _
      have hfv : (s1.page_table (s1.page_table s1.pointer).frame_number).frame_number
          < c.FRAME_COUNT := by
        rw [(hsame _).2.1]; exact h.frames_lt _
      rw [toInt32_of_lt (show (s1.page_table s1.pointer).frame_number < 2 ^ 31 by omega)] at hs1
      exact ⟨_, handle_page_fault_victim c s s1 p policy (s1.page_table s1.pointer).frame_number
        (s1.page_table (s1.page_table s1.pointer).frame_number).frame_number (by omega) hfv
        (by omega) h1 (by rw [if_neg hpol, hs1]) (toInt32_of_lt (by omega))⟩
  · exact ⟨_, handle_page_fault_free c s p policy j (by omega) (by omega) h4⟩

/-- In a state satisfying the invariant `process_address` returns for every address
whose page number is inside the page table, provided (under LRU) that the clock has
not reached `INT_MAX`. -/
theorem process_address_returns {c : Config} {s : State} (hc : c.WellFormed) (h : Inv c s)
    (a : Nat) (policy : Int) (hp : a >>> 12 < c.PAGE_TABLE_SIZE)
    (hctr : policy = 0 → s.lru_counter < INT_MAX) :
    ∃ s4 physical, process_address c s a policy = some (s4, physical) := by
  by_cases hit : search_tlb c s (a >>> 12) = -1
  · by_cases hres : (s.page_table (a >>> 12)).valid = true
    · exact ⟨_, _, process_address_resident_miss c s a policy hp hit hres hctr⟩
    · have hres2 : (s.page_table (a >>> 12)).valid = false := by simpa using hres
      obtain ⟨s2, hpf⟩ := handle_page_fault_returns hc (inv_count_miss h) (a >>> 12) policy hctr
      have hF31 : c.FRAME_COUNT ≤ 2 ^ 31 := by
        obtain ⟨_, h2, h3, _, _⟩ := hc; omega
      have hm := search_tlb_miss h hF31 hit
      obtain ⟨_, _, hl⟩ := inv_handle_page_fault (inv_count_miss h) hc hp hm hpf
      exact ⟨_, _, process_address_fault c s s2 a policy hp hit hres2 hpf
        (fun e => by rw [hl]; exact hctr e)⟩
  · exact ⟨_, _, process_address_hit c s a policy hp hit hctr⟩

/-- A 32-bit address has a page number below `1 << 20`, the page-table size of main.c. -/
theorem page_number_lt {a : Nat} (h : a < 2 ^ 32) : a >>> 12 < source_config.PAGE_TABLE_SIZE := by
  rw [Nat.shiftRight_eq_div_pow]
  show _ < 1 <<< 20
  have : (1 : Nat) <<< 20 = 2 ^ 20 := by decide
  rw [this]
  omega

theorem source_config_wellFormed : source_config.WellFormed := by decide

/-! ## Effects of a call on an arbitrary state -/

/-- The Second-Chance scan changes nothing but reference bits. -/
theorem second_chance_loop_same (c : Config) (fuel : Nat) :
    ∀ (pt : Nat → PageTableEntry) (q : Nat) (r : (Nat → PageTableEntry) × Nat × Int),
      second_chance_loop c fuel pt q = some r → ∀ i, SameButReference (r.1 i) (pt i) := by
  induction fuel with
  | zero => intro pt q r h; simp [second_chance_loop] at h
  | succ f ih =>
    intro pt q r h i
    by_cases hr : (pt q).reference = true
    · rw [second_chance_loop_advance c _ pt q hr] at h
      have h1 := ih _ _ _ h i
      rw [store_apply] at h1
      split at h1
      · rename_i e; subst e; exact h1
      · exact h1
    · have hr2 : (pt q).reference = false := by simpa using hr
      rw [second_chance_loop_stop c _ pt q hr2] at h
      have := Option.some.inj h
      subst this
      exact SameButReference.rfl _

theorem second_chance_replacement_same (c : Config) (s s1 : State) (r : Int)
    (h : second_chance_replacement c s = some (s1, r)) :
    (∀ i, SameButReference (s1.page_table i) (s.page_table i)) ∧
    s1.tlb = s.tlb ∧ s1.frame_usage = s.frame_usage ∧ s1.lru_counter = s.lru_counter ∧
    s1.tlb_miss = s.tlb_miss ∧ s1.tlb_hits = s.tlb_hits ∧ s1.page_faults = s.page_faults ∧
    s1.tlb_index = s.tlb_index := by
  unfold second_chance_replacement at h
  cases hl : second_chance_loop c (c.PAGE_TABLE_SIZE + 1) s.page_table s.pointer with
  | none => rw [hl] at h; simp at h
  | some res =>
    obtain ⟨pt1, q1, r1⟩ := res
    rw [hl] at h
    simp only [Option.some.injEq, Prod.mk.injEq] at h
    obtain ⟨rfl, _⟩ := h
    exact ⟨second_chance_loop_same c _ _ _ _ hl, rfl, rfl, rfl, rfl, rfl, rfl, rfl⟩

/-- The state in which `handle_page_fault` binds the frame differs from the state it
was called in at most in reference bits, the Second-Chance cursor, and the validity
of the evicted entry. -/
theorem handle_page_fault_effect {c : Config} {s s2 : State} {p : Nat} {policy : Int}
    (h31 : c.FRAME_COUNT ≤ 2 ^ 31) (hpf : handle_page_fault c s p policy = some s2) :
    ∃ (s0 : State) (f : Nat), f < c.FRAME_COUNT ∧ s2 = bind_frame c s0 p f ∧
      (∀ i, (s0.page_table i).frame_number = (s.page_table i).frame_number) ∧
      (∀ i, (s0.page_table i).lru_counter = (s.page_table i).lru_counter) ∧
      (∀ i, (s0.page_table i).valid = true → (s.page_table i).valid = true) ∧
      s0.tlb = s.tlb ∧ s0.tlb_index = s.tlb_index ∧ s0.frame_usage = s.frame_usage ∧
      s0.lru_counter = s.lru_counter ∧ s0.tlb_miss = s.tlb_miss ∧
      s0.tlb_hits = s.tlb_hits ∧ s0.page_faults = s.page_faults := by
  rcases handle_page_fault_cases c s s2 p policy h31 hpf with
    ⟨f, hf, _, rfl⟩ | ⟨_, s1, v, f, _, hf, hsel, _, rfl⟩
  · exact ⟨s, f, hf, rfl, fun _ => rfl, fun _ => rfl, fun _ hv => hv, rfl, rfl, rfl, rfl, rfl,
      rfl, rfl⟩
  · have hs1 : (∀ i, SameButReference (s1.page_table i) (s.page_table i)) ∧
        s1.tlb = s.tlb ∧ s1.frame_usage = s.frame_usage ∧ s1.lru_counter = s.lru_counter ∧
        s1.tlb_miss = s.tlb_miss ∧ s1.tlb_hits = s.tlb_hits ∧
        s1.page_faults = s.page_faults ∧ s1.tlb_index = s.tlb_index := by
      by_cases hpol : policy = 0
      · rw [if_pos hpol] at hsel
        cases hl : lru_replacement c s with
        | none => rw [hl] at hsel; simp at hsel
        | some r =>
          rw [hl] at hsel
          simp only [Option.map_some', Option.some.injEq, Prod.mk.injEq] at hsel
          obtain ⟨rfl, _⟩ := hsel
          exact ⟨fun i => SameButReference.rfl _, rfl, rfl, rfl, rfl, rfl, rfl, rfl⟩
      · rw [if_neg hpol] at hsel
        exact second_chance_replacement_same c s s1 _ hsel
    obtain ⟨hsame, htlb, hfu, hctr, hm, hh, hpfs, hidx⟩ := hs1
    refine ⟨evict s1 v, f, hf, rfl, ?_, ?_, ?_, htlb, hidx, hfu, hctr, hm, hh, hpfs⟩
    · intro i
      simp only [evict, store_apply]
      split
      · rename_i e; subst e; exact (hsame _).2.1
      · exact (hsame i).2.1
    · intro i
      simp only [evict, store_apply]
      split
      · rename_i e; subst e; exact (hsame _).2.2.2
      · exact (hsame i).2.2.2
    · intro i
      simp only [evict, store_apply]
      split
      · intro hv; simp at hv
      · intro hv; rw [← (hsame i).2.2.1]; exact hv

/-- How one call of `process_address` moves the three statistics: a hit counts one
hit; a miss counts one miss and, when the page is not resident, one page fault. -/
theorem process_address_stats {c : Config} {s s4 : State} {a physical : Nat} {policy : Int}
    (h31 : c.FRAME_COUNT ≤ 2 ^ 31)
    (h : process_address c s a policy = some (s4, physical)) :
    (search_tlb c s (a >>> 12) ≠ -1 ∧ s4.tlb_hits = s.tlb_hits + 1 ∧
        s4.tlb_miss = s.tlb_miss ∧ s4.page_faults = s.page_faults) ∨
    (search_tlb c s (a >>> 12) = -1 ∧ (s.page_table (a >>> 12)).valid = true ∧
        s4.tlb_hits = s.tlb_hits ∧ s4.tlb_miss = s.tlb_miss + 1 ∧
        s4.page_faults = s.page_faults) ∨
    (search_tlb c s (a >>> 12) = -1 ∧ (s.page_table (a >>> 12)).valid = false ∧
        s4.tlb_hits = s.tlb_hits ∧ s4.tlb_miss = s.tlb_miss + 1 ∧
        s4.page_faults = s.page_faults + 1) := by
  rcases process_address_cases c s s4 a physical policy h with
    ⟨_, ⟨hit, _, rfl, _⟩ | ⟨miss, hres, _, rfl, _⟩ | ⟨miss, hres, s2, hpf, _, rfl, _⟩⟩
  · left
    exact ⟨hit, by simp [count_hit], by simp [count_hit], by simp [count_hit]⟩
  · right; left
    exact ⟨miss, hres, by simp [count_miss, update_tlb], by simp [count_miss, update_tlb],
      by simp [count_miss, update_tlb]⟩
  · right; right
    obtain ⟨s0, f, _, rfl, _, _, _, _, _, _, _, hm, hh, hpfs⟩ :=
      handle_page_fault_effect h31 hpf
    refine ⟨miss, hres, ?_, ?_, ?_⟩
    · simp [update_tlb, bind_frame, hh, count_miss]
    · simp [update_tlb, bind_frame, hm, count_miss]
    · simp [update_tlb, bind_frame, hpfs, count_miss]

/-- A call of `process_address` makes no page resident other than the one addressed. -/
theorem process_address_valid_subset {c : Config} {s s4 : State} {a physical : Nat}
    {policy : Int} (h31 : c.FRAME_COUNT ≤ 2 ^ 31)
    (h : process_address c s a policy = some (s4, physical)) (i : Nat)
    (hv : (s4.page_table i).valid = true) :
    i = a >>> 12 ∨ (s.page_table i).valid = true := by
  rcases process_address_cases c s s4 a physical policy h with
    ⟨_, ⟨_, _, rfl, _⟩ | ⟨_, _, _, rfl, _⟩ | ⟨_, _, s2, hpf, _, rfl, _⟩⟩
  · right; simpa [count_hit] using hv
  · right; simpa [count_miss, update_tlb] using hv
  · obtain ⟨s0, f, _, rfl, _, _, hval, _⟩ := handle_page_fault_effect h31 hpf
    by_cases e : i = a >>> 12
    · exact Or.inl e
    · right
      rw [touch_valid] at hv
      simp only [update_tlb, bind_frame] at hv
      rw [store_other _ _ e] at hv
      exact hval i hv

/-- The clock `lru_counter` advances by one per call under LRU and stays put under
Second-Chance. -/
theorem process_address_lru_counter {c : Config} {s s4 : State} {a physical : Nat}
    {policy : Int} (h31 : c.FRAME_COUNT ≤ 2 ^ 31)
    (h : process_address c s a policy = some (s4, physical)) :
    s4.lru_counter = if policy = 0 then s.lru_counter + 1 else s.lru_counter := by
  have ht : ∀ (t : State) (p : Nat), (touch t p policy).lru_counter =
      if policy = 0 then t.lru_counter + 1 else t.lru_counter := by
    intro t p; unfold touch; split <;> rfl
  rcases process_address_cases c s s4 a physical policy h with
    ⟨_, ⟨_, _, rfl, _⟩ | ⟨_, _, _, rfl, _⟩ | ⟨_, _, s2, hpf, _, rfl, _⟩⟩
  · rw [ht]; rfl
  · rw [ht]; rfl
  · obtain ⟨s0, f, _, rfl, _, _, _, _, _, _, hl, _⟩ := handle_page_fault_effect h31 hpf
    rw [ht]
    simp only [update_tlb, bind_frame, hl, count_miss]

/-! ## Runs -/

theorem run_append (c : Config) (policy : Int) (t1 t2 : List Nat) :
    ∀ s, run c policy s (t1 ++ t2) = (run c policy s t1).bind (fun s1 => run c policy s1 t2) := by
  induction t1 with
  | nil => intro s; rfl
  | cons a t ih =>
    intro s
    simp only [List.cons_append, run]
    cases process_address c s a policy with
    | none => rfl
    | some r => exact ih r.1

theorem run_reachable {c : Config} {policy : Int} (trace : List Nat)
    (h32 : ∀ a ∈ trace, a < 2 ^ 32) :
    ∀ s s1, Reachable c policy s → run c policy s trace = some s1 →
      Reachable c policy s1 := by
  induction trace with
  | nil => intro s s1 hs h; simp only [run, Option.some.injEq] at h; subst h; exact hs
  | cons a t ih =>
    intro s s1 hs h
    simp only [run] at h
    cases hp : process_address c s a policy with
    | none => rw [hp] at h; simp at h
    | some r =>
      rw [hp] at h
      exact ih (fun x hx => h32 x (List.mem_cons_of_mem _ hx)) r.1 s1
        (Reachable.step hs (h32 a (List.mem_cons_self _ _)) hp) h

theorem run_eq_some_after {c : Config} {policy : Int} {trace : List Nat}
    (h : (run c policy (initial c) trace).isSome = true) :
    run c policy (initial c) trace = some (after c policy trace) := by
  unfold after
  cases hr : run c policy (initial c) trace with
  | none => rw [hr] at h; simp at h
  | some s => rfl

/-- The state after a trace of 32-bit addresses none of whose calls has undefined
behaviour is reachable. -/
theorem after_reachable {c : Config} {policy : Int} {trace : List Nat}
    (h32 : ∀ a ∈ trace, a < 2 ^ 32)
    (h : (run c policy (initial c) trace).isSome = true) :
    Reachable c policy (after c policy trace) :=
  run_reachable trace h32 _ _ Reachable.init (run_eq_some_after h)

/-- Every reachable state is the result of running some trace of 32-bit addresses. -/
theorem reachable_iff_run {c : Config} {policy : Int} {s : State} :
    Reachable c policy s ↔
      ∃ trace : List Nat, (∀ a ∈ trace, a < 2 ^ 32) ∧ run c policy (initial c) trace = some s := by
  constructor
  · intro h
    induction h with
    | init => exact ⟨[], by simp, rfl⟩
    | step _ ha hstep ih =>
      rename_i s0 s1 a phys _
      obtain ⟨t, ht, hr⟩ := ih
      refine ⟨t ++ [a], ?_, ?_⟩
      · intro x hx
        rcases List.mem_append.mp hx with h1 | h1
        · exact ht x h1
        · rw [List.mem_singleton.mp h1]; exact ha
      · rw [run_append, hr]
        simp [run, hstep]
  · rintro ⟨t, ht, hr⟩
    exact run_reachable t ht _ _ Reachable.init hr

theorem initial_not_valid (c : Config) (i : Nat) : ((initial c).page_table i).valid = false := by
  simp only [initial, init_tlb, init_page_table, zero_state]
  split <;> rfl

/-- Only pages addressed by the trace can be resident after it. -/
theorem run_valid_subset {c : Config} {policy : Int} (h31 : c.FRAME_COUNT ≤ 2 ^ 31)
    (trace : List Nat) :
    ∀ s s1, run c policy s trace = some s1 → ∀ i, (s1.page_table i).valid = true →
      (s.page_table i).valid = true ∨ ∃ a ∈ trace, i = a >>> 12 := by
  induction trace with
  | nil => intro s s1 h i hv; simp only [run, Option.some.injEq] at h; subst h; exact Or.inl hv
  | cons a t ih =>
    intro s s1 h i hv
    simp only [run] at h
    cases hp : process_address c s a policy with
    | none => rw [hp] at h; simp at h
    | some r =>
      obtain ⟨s0, phys⟩ := r
      rw [hp] at h
      rcases ih s0 s1 h i hv with h1 | ⟨x, hx, e⟩
      · rcases process_address_valid_subset h31 hp i h1 with h2 | h2
        · exact Or.inr ⟨a, List.mem_cons_self _ _, h2⟩
        · exact Or.inl h2
      · exact Or.inr ⟨x, List.mem_cons_of_mem _ hx, e⟩

theorem after_valid_subset {c : Config} {policy : Int} {trace : List Nat}
    (h31 : c.FRAME_COUNT ≤ 2 ^ 31) (h : (run c policy (initial c) trace).isSome = true)
    (i : Nat) (hv : ((after c policy trace).page_table i).valid = true) :
    ∃ a ∈ trace, i = a >>> 12 := by
  rcases run_valid_subset h31 trace _ _ (run_eq_some_after h) i hv with h1 | h1
  · rw [initial_not_valid] at h1; exact absurd h1 (by simp)
  · exact h1

/-- The statistics after a run: hits and misses add up to the number of calls, and
page faults never exceed misses. -/
theorem run_stats {c : Config} {policy : Int} (h31 : c.FRAME_COUNT ≤ 2 ^ 31)
    (trace : List Nat) :
    ∀ s s1, run c policy s trace = some s1 →
      s1.tlb_hits + s1.tlb_miss = s.tlb_hits + s.tlb_miss + (trace.length : Int) ∧
      s1.page_faults - s.page_faults ≤ s1.tlb_miss - s.tlb_miss ∧
      s.tlb_hits ≤ s1.tlb_hits ∧ s.tlb_miss ≤ s1.tlb_miss ∧ s.page_faults ≤ s1.page_faults := by
  induction trace with
  | nil =>
    intro s s1 h
    simp only [run, Option.some.injEq] at h
    subst h
    simp
  | cons a t ih =>
    intro s s1 h
    simp only [run] at h
    cases hp : process_address c s a policy with
    | none => rw [hp] at h; simp at h
    | some r =>
      obtain ⟨s0, phys⟩ := r
      rw [hp] at h
      have h1 := ih s0 s1 h
      have h2 := process_address_stats h31 hp
      simp only [List.length_cons, Nat.cast_add, Nat.cast_one]
      omega

/-- A run returns when every page number is inside the page table and (under LRU) the
clock stays below `INT_MAX`. -/
theorem run_returns {c : Config} {policy : Int} (hc : c.WellFormed) (trace : List Nat) :
    ∀ s, Inv c s → (∀ a ∈ trace, a >>> 12 < c.PAGE_TABLE_SIZE) →
      (policy = 0 → s.lru_counter + (trace.length : Int) ≤ INT_MAX) →
      ∃ s1, run c policy s trace = some s1 := by
  have h31 : c.FRAME_COUNT ≤ 2 ^ 31 := by
    obtain ⟨_, h2, h3, _, _⟩ := hc; omega
  induction trace with
  | nil => intro s _ _ _; exact ⟨s, rfl⟩
  | cons a t ih =>
    intro s hs hp hctr
    have hctr1 : policy = 0 → s.lru_counter < INT_MAX := by
      intro e
      have := hctr e
      simp only [List.length_cons, Nat.cast_add, Nat.cast_one] at this
      omega
    obtain ⟨s0, phys, hstep⟩ :=
      process_address_returns hc hs a policy (hp a (List.mem_cons_self _ _)) hctr1
    have hl := process_address_lru_counter h31 hstep
    obtain ⟨s1, h1⟩ := ih s0 (inv_process_address hc hs hstep)
      (fun x hx => hp x (List.mem_cons_of_mem _ hx))
      (by
        intro e
        have := hctr e
        simp only [List.length_cons, Nat.cast_add, Nat.cast_one] at this
        rw [hl, if_pos e]
        omega)
    exact ⟨s1, by simp only [run, hstep]; exact h1⟩

/-! ## Tools for evaluating concrete runs -/

theorem valid_pages_ge (c : Config) (s : State) (l : List Nat) (hnd : l.Nodup)
    (h : ∀ i ∈ l, i < c.PAGE_TABLE_SIZE ∧ (s.page_table i).valid = true) :
    l.length ≤ valid_pages c s := by
  unfold valid_pages
  apply List.Subperm.length_le
  apply List.Nodup.subperm hnd
  intro i hi
  rw [List.mem_filter, List.mem_range]
  exact h i hi

theorem valid_pages_le (c : Config) (s : State) (l : List Nat)
    (h : ∀ i, (s.page_table i).valid = true → i ∈ l) :
    valid_pages c s ≤ l.length := by
  unfold valid_pages
  apply List.Subperm.length_le
  apply List.Nodup.subperm ((List.nodup_range _).filter _)
  intro i hi
  rw [List.mem_filter] at hi
  exact h i hi.2

/-- The scan of `lru_replacement` ends with `oldest = o` when page `o` is valid, its
counter is below `INT_MAX` and least among the valid pages, and no valid page before
`o` has the same counter; `cands` lists the pages that may be valid. -/
theorem lru_scan_eq (pt : Nat → PageTableEntry) (n o : Nat) (cands : List Nat)
    (hsub : ∀ i, (pt i).valid = true → i ∈ cands)
    (ho : o < n) (hvo : (pt o).valid = true) (hlt : (pt o).lru_counter < INT_MAX)
    (hmin : ∀ i ∈ cands, (pt i).valid = true →
      (pt o).lru_counter ≤ (pt i).lru_counter ∧ (i < o → (pt o).lru_counter < (pt i).lru_counter)) :
    (lru_scan pt n).1 = (o : Int) := by
  rcases lru_scan_spec pt n with ⟨_, hno⟩ | ⟨j, hj, hvj, _, heq, hm, hfirst⟩
  · have := hno o ho hvo; omega
  · rw [heq]
    have h1 := hmin j (hsub j hvj) hvj
    have h2 := hm o ho hvo
    have : j = o := by
      rcases Nat.lt_trichotomy j o with h | h | h
      · have := h1.2 h; omega
      · exact h
      · have := hfirst o h hvo; omega
    rw [this]

theorem lru_replacement_eq (c : Config) (s : State) (o : Nat)
    (h : (lru_scan s.page_table c.PAGE_TABLE_SIZE).1 = (o : Int)) :
    lru_replacement c s = some (toInt32 (s.page_table o).frame_number) := by
  have h1 : ¬ ((o : Int) < 0) := by omega
  simp [lru_replacement, h, h1]

/-- A page fault under LRU with no free frame: `oldest` is the page the scan selects,
but the page evicted is the one whose number equals the frame number of `oldest`, and
the frame bound is the frame number stored in that evicted entry. -/
theorem handle_page_fault_lru (c : Config) (hc : c.WellFormed) (s : State) (p o : Nat)
    (hfull : find_free_frame c s = -1)
    (hscan : (lru_scan s.page_table c.PAGE_TABLE_SIZE).1 = (o : Int))
    (hv : (s.page_table o).frame_number < c.FRAME_COUNT)
    (hf : (s.page_table (s.page_table o).frame_number).frame_number < c.FRAME_COUNT) :
    handle_page_fault c s p 0 =
      some (bind_frame c (evict s (s.page_table o).frame_number) p
        (s.page_table (s.page_table o).frame_number).frame_number) := by
  obtain ⟨_, h2, h3, _, _⟩ := hc
  have hl := lru_replacement_eq c s o hscan
  rw [toInt32_of_lt (by omega)] at hl
  exact handle_page_fault_victim c s s p 0 _ _ (by omega) hf (by omega) hfull
    (by rw [if_pos rfl, hl]; rfl) (toInt32_of_lt (by omega))

theorem process_address_lru_fault (c : Config) (hc : c.WellFormed) (s : State) (a o : Nat)
    (hp : a >>> 12 < c.PAGE_TABLE_SIZE) (miss : search_tlb c s (a >>> 12) = -1)
    (hres : (s.page_table (a >>> 12)).valid = false)
    (hfull : find_free_frame c s = -1)
    (hscan : (lru_scan s.page_table c.PAGE_TABLE_SIZE).1 = (o : Int))
    (hv : (s.page_table o).frame_number < c.FRAME_COUNT)
    (hf : (s.page_table (s.page_table o).frame_number).frame_number < c.FRAME_COUNT)
    (hctr : s.lru_counter < INT_MAX) :
    process_address c s a 0 =
      some (touch (update_tlb c
              (bind_frame c (evict (count_miss s) (s.page_table o).frame_number) (a >>> 12)
                (s.page_table (s.page_table o).frame_number).frame_number)
              (a >>> 12) (s.page_table (s.page_table o).frame_number).frame_number)
            (a >>> 12) 0,
        physical_address (s.page_table (s.page_table o).frame_number).frame_number a) := by
  have hpf : handle_page_fault c (count_miss s) (a >>> 12) 0 =
      some (bind_frame c (evict (count_miss s) (s.page_table o).frame_number) (a >>> 12)
        (s.page_table (s.page_table o).frame_number).frame_number) :=
    handle_page_fault_lru c hc (count_miss s) (a >>> 12) o hfull hscan hv hf
  have h31 : (s.page_table (s.page_table o).frame_number).frame_number < 2 ^ 31 := by
    obtain ⟨_, h2, h3, _, _⟩ := hc; omega
  have hfr : ((bind_frame c (evict (count_miss s) (s.page_table o).frame_number) (a >>> 12)
      (s.page_table (s.page_table o).frame_number).frame_number).page_table (a >>> 12)).frame_number
      = (s.page_table (s.page_table o).frame_number).frame_number := by
    simp [bind_frame]
  have := process_address_fault c s _ a 0 hp miss hres hpf (fun _ => hctr)
  rw [this, hfr, toUInt32_toInt32 h31, toInt32_of_lt h31]

theorem run_snoc {c : Config} {policy : Int} {trace : List Nat} {a physical : Nat} {s1 : State}
    (h : (run c policy (initial c) trace).isSome = true)
    (hstep : process_address c (after c policy trace) a policy = some (s1, physical)) :
    run c policy (initial c) (trace ++ [a]) = some s1 := by
  rw [run_append, run_eq_some_after h]
  simp [run, hstep]

theorem after_snoc {c : Config} {policy : Int} {trace : List Nat} {a physical : Nat} {s1 : State}
    (h : (run c policy (initial c) trace).isSome = true)
    (hstep : process_address c (after c policy trace) a policy = some (s1, physical)) :
    after c policy (trace ++ [a]) = s1 := by
  unfold after
  rw [run_snoc h hstep]; rfl

/-! ## The state after filling all 64 frames -/

theorem valid_pages_after {c : Config} {policy : Int} {trace : List Nat}
    (h31 : c.FRAME_COUNT ≤ 2 ^ 31) (hsome : (run c policy (initial c) trace).isSome = true)
    (hnd : (trace.map (fun a => a >>> 12)).Nodup)
    (hall : ∀ i ∈ trace.map (fun a => a >>> 12),
      i < c.PAGE_TABLE_SIZE ∧ ((after c policy trace).page_table i).valid = true) :
    valid_pages c (after c policy trace) = trace.length := by
  apply le_antisymm
  · have := valid_pages_le c (after c policy trace) (trace.map (fun a => a >>> 12)) (by
      intro i hv
      obtain ⟨a, ha, e⟩ := after_valid_subset h31 hsome i hv
      exact List.mem_map.mpr ⟨a, ha, e.symm⟩)
    simpa using this
  · have := valid_pages_ge c (after c policy trace) (trace.map (fun a => a >>> 12)) hnd hall
    simpa using this

theorem fill_trace_facts :
    (run source_config 0 (initial source_config) fill_trace).isSome = true ∧
    search_tlb source_config (after source_config 0 fill_trace) (0xC8000 >>> 12) = -1 ∧
    ((after source_config 0 fill_trace).page_table (0xC8000 >>> 12)).valid = false ∧
    find_free_frame source_config (after source_config 0 fill_trace) = -1 ∧
    ((after source_config 0 fill_trace).page_table 64).valid = true ∧
    ((after source_config 0 fill_trace).page_table 64).lru_counter < INT_MAX ∧
    ((after source_config 0 fill_trace).page_table 64).frame_number = 0 ∧
    ((after source_config 0 fill_trace).page_table 0).frame_number = 0 ∧
    (after source_config 0 fill_trace).lru_counter < INT_MAX ∧
    (∀ i ∈ fill_trace.map (fun a => a >>> 12),
      ((after source_config 0 fill_trace).page_table i).valid = true →
      ((after source_config 0 fill_trace).page_table 64).lru_counter ≤
        ((after source_config 0 fill_trace).page_table i).lru_counter ∧
      (i < 64 → ((after source_config 0 fill_trace).page_table 64).lru_counter <
        ((after source_config 0 fill_trace).page_table i).lru_counter)) := by
  decide!

/-- After the pages 64, ..., 127 have been touched under LRU the scan of
`lru_replacement` selects page 64. -/
theorem fill_trace_oldest :
    (lru_scan (after source_config 0 fill_trace).page_table source_config.PAGE_TABLE_SIZE).1
      = ((64 : Nat) : Int) := by
  obtain ⟨h1, _, _, _, h5, h6, _, _, _, h10⟩ := fill_trace_facts
  refine lru_scan_eq _ _ 64 (fill_trace.map (fun a => a >>> 12)) ?_ (by decide) h5 h6 h10
  intro i hv
  obtain ⟨a, ha, e⟩ := after_valid_subset (by decide) h1 i hv
  exact List.mem_map.mpr ⟨a, ha, e.symm⟩

/-- The 65th reference, to page 200, under LRU: page 0 is "evicted" (the frame number
of the oldest page 64 is taken for a page number) and page 200 gets frame
`page_table[0].frame_number = 0`. -/
theorem fill_trace_then_200 :
    process_address source_config (after source_config 0 fill_trace) 0xC8000 0 =
      some (touch (update_tlb source_config
              (bind_frame source_config (evict (count_miss (after source_config 0 fill_trace)) 0)
                200 0) 200 0) 200 0,
            physical_address 0 0xC8000) := by
  obtain ⟨_, h2, h3, h4, _, _, h7, h8, h9, _⟩ := fill_trace_facts
  have := process_address_lru_fault source_config source_config_wellFormed
    (after source_config 0 fill_trace) 0xC8000 64 (by decide) h2 h3 h4 fill_trace_oldest
    (by rw [h7]; decide) (by rw [h7, h8]; decide) h9
  rw [h7, h8] at this
  exact this

/-! # The claims -/

/-! ## C1 and C2: conservation and frame exclusivity -/

/-- C1 (conservation of the count) does not hold for main.c.  In the configuration
of main.c, after the 65 references to the pages 64, ..., 127, 200 (each a page fault)
all 64 frames are occupied but 65 page-table entries are valid, under LRU and under
Second-Chance alike.  The 65th fault invalidates page 0, which is not resident: under
LRU the scan selects page 64 and its frame number 0 is taken for the victim's page
number; under Second-Chance the scan stops at the cursor 0, an entry that is not
valid. -/
theorem conservation_fails :
    ((run source_config 0 (initial source_config) (fill_trace ++ [0xC8000])).isSome = true ∧
      occupied_frames source_config (after source_config 0 (fill_trace ++ [0xC8000])) = 64 ∧
      valid_pages source_config (after source_config 0 (fill_trace ++ [0xC8000])) = 65) ∧
    ((run source_config 1 (initial source_config) (fill_trace ++ [0xC8000])).isSome = true ∧
      occupied_frames source_config (after source_config 1 (fill_trace ++ [0xC8000])) = 64 ∧
      valid_pages source_config (after source_config 1 (fill_trace ++ [0xC8000])) = 65) := by
  have hs0 : (run source_config 0 (initial source_config) (fill_trace ++ [0xC8000])).isSome
      = true := by
    rw [run_snoc fill_trace_facts.1 fill_trace_then_200]; rfl
  have he := after_snoc fill_trace_facts.1 fill_trace_then_200
  refine ⟨⟨hs0, ?_, ?_⟩, ⟨by decide!, by decide!, ?_⟩⟩
  · rw [he]; decide!
  · refine valid_pages_after (by decide) hs0 (by decide) ?_
    rw [he]; decide!
  · exact valid_pages_after (by decide) (by decide!) (by decide) (by decide!)

/-- C2 (frame exclusivity) does not hold for main.c.  In the configuration of
main.c, after the 65 references to the pages 64, ..., 127, 200 the two distinct pages 64
and 200 are both valid and both hold frame 0, under LRU and under Second-Chance alike. -/
theorem frame_exclusivity_fails :
    (((after source_config 0 (fill_trace ++ [0xC8000])).page_table 64).valid = true ∧
      ((after source_config 0 (fill_trace ++ [0xC8000])).page_table 200).valid = true ∧
      ((after source_config 0 (fill_trace ++ [0xC8000])).page_table 64).frame_number = 0 ∧
      ((after source_config 0 (fill_trace ++ [0xC8000])).page_table 200).frame_number = 0 ∧
      Reachable source_config 0 (after source_config 0 (fill_trace ++ [0xC8000]))) ∧
    (((after source_config 1 (fill_trace ++ [0xC8000])).page_table 64).valid = true ∧
      ((after source_config 1 (fill_trace ++ [0xC8000])).page_table 200).valid = true ∧
      ((after source_config 1 (fill_trace ++ [0xC8000])).page_table 64).frame_number = 0 ∧
      ((after source_config 1 (fill_trace ++ [0xC8000])).page_table 200).frame_number = 0 ∧
      Reachable source_config 1 (after source_config 1 (fill_trace ++ [0xC8000]))) := by
  have hs0 : (run source_config 0 (initial source_config) (fill_trace ++ [0xC8000])).isSome
      = true := by
    rw [run_snoc fill_trace_facts.1 fill_trace_then_200]; rfl
  have hr0 : Reachable source_config 0 (after source_config 0 (fill_trace ++ [0xC8000])) :=
    after_reachable (by decide) hs0
  have hr1 : Reachable source_config 1 (after source_config 1 (fill_trace ++ [0xC8000])) :=
    after_reachable (by decide) (by decide!)
  have he := after_snoc fill_trace_facts.1 fill_trace_then_200
  rw [he] at hr0 ⊢
  exact ⟨⟨by decide!, by decide!, by decide!, by decide!, hr0⟩,
    ⟨by decide!, by decide!, by decide!, by decide!, hr1⟩⟩

/-! ## C3: the translation guarantee -/

theorem physical_address_natCast {f : Nat} (hf : f < 2 ^ 20) (a : Nat) :
    physical_address ((f : Nat) : Int) a = (f <<< 12) ||| (a &&& 0xFFF) := by
  unfold physical_address
  have h1 : ((f : Int) * 4096) = ((f * 4096 : Nat) : Int) := by push_cast; ring
  rw [h1, toUInt32_natCast (by omega), Nat.shiftLeft_eq]

/-- In a state satisfying the invariant, a TLB hit on a resident page returns the frame
the page table holds for it. -/
theorem search_tlb_hit_resident {c : Config} {s : State} {p : Nat} (hc : c.WellFormed)
    (hi : Inv c s) (hit : search_tlb c s p ≠ -1) (hv : (s.page_table p).valid = true) :
    search_tlb c s p = (((s.page_table p).frame_number : Nat) : Int) := by
  have h31 : c.FRAME_COUNT ≤ 2 ^ 31 := by
    obtain ⟨_, h2, h3, _, _⟩ := hc; omega
  obtain ⟨j, hj, hvj, hpj, hres⟩ := search_tlb_hit hit
  have hlt := hi.tlb_frames j
  rw [hres, toInt32_of_lt (by omega)]
  have := hi.tlb_consistent j hj hvj (by rw [hpj]; exact hv)
  rw [hpj] at this
  rw [this]

/-- In every reachable state a valid TLB slot holds the frame number stored in the
page-table entry of its page, whether or not that entry is still valid: an eviction
clears `valid` only, and `frame_number` is rewritten only by a fault on the page, which
follows a TLB miss. -/
theorem reachable_tlb_frame {c : Config} {policy : Int} {s : State} (hc : c.WellFormed)
    (hs : Reachable c policy s) :
    ∀ j, j < c.TLB_SIZE → (s.tlb j).valid = true →
      (s.page_table (s.tlb j).page_number).frame_number = (s.tlb j).frame_number := by
  have h31 : c.FRAME_COUNT ≤ 2 ^ 31 := by
    obtain ⟨_, h2, h3, _, _⟩ := hc; omega
  induction hs with
  | init =>
    intro j _ hv
    simp [initial, init_tlb, init_page_table, zero_state] at hv
  | step hreach _ hstep ih =>
    rename_i s0 s4 a physical _
    have hi := reachable_inv hc hreach
    rcases process_address_cases c s0 s4 a physical policy hstep with
      ⟨hp, ⟨_, _, rfl, _⟩ | ⟨_, _, _, rfl, _⟩ | ⟨miss, _, s2, hpf, _, rfl, _⟩⟩
    · intro j hj hv
      rw [touch_tlb] at hv ⊢
      rw [touch_frame_number]
      exact ih j hj hv
    · have hlt := hi.frames_lt (a >>> 12)
      rw [toUInt32_toInt32 (by omega)]
      intro j hj
      rw [touch_tlb]
      simp only [touch_frame_number, update_tlb, count_miss, store_apply]
      split
      · intro _; rfl
      · exact ih j hj
    · have hm := search_tlb_miss hi h31 miss
      obtain ⟨h2, _, _⟩ := inv_handle_page_fault (inv_count_miss hi) hc hp hm hpf
      have hlt := h2.frames_lt (a >>> 12)
      rw [toUInt32_toInt32 (by omega)]
      obtain ⟨x0, f, _, rfl, hfr, _, _, htlb, _, _⟩ := handle_page_fault_effect h31 hpf
      intro j hj
      rw [touch_tlb]
      simp only [touch_frame_number, update_tlb, bind_frame]
      rw [store_apply]
      split
      · intro _; simp
      · rw [store_apply]
        split
        · intro _; simp
        · rw [htlb]
          intro hv
          have hq : (s0.tlb j).page_number ≠ a >>> 12 := fun e => hm j hj ⟨hv, e⟩
          have e1 : ((count_miss s0).tlb j) = s0.tlb j := rfl
          rw [e1, store_other _ _ hq, hfr]
          exact ih j hj hv

/-- In a reachable state a TLB hit returns the frame number stored in the page-table
entry of the page, resident or not. -/
theorem search_tlb_hit_frame {c : Config} {policy : Int} {s : State} {p : Nat}
    (hc : c.WellFormed) (hs : Reachable c policy s) (hit : search_tlb c s p ≠ -1) :
    search_tlb c s p = (((s.page_table p).frame_number : Nat) : Int) := by
  have hi := reachable_inv hc hs
  have h31 : c.FRAME_COUNT ≤ 2 ^ 31 := by
    obtain ⟨_, h2, h3, _, _⟩ := hc; omega
  obtain ⟨j, hj, hvj, hpj, hres⟩ := search_tlb_hit hit
  have hlt := hi.tlb_frames j
  rw [hres, toInt32_of_lt (by omega)]
  have := reachable_tlb_frame hc hs j hj hvj
  rw [hpj] at this
  rw [this]

/-- C3, counterexample.  In the configuration of main.c, under Second-Chance, touch the
pages 64, ..., 126, then page 0, then page 200: the fault on page 200 invalidates page 0,
whose TLB slot stays.  The next call `process_address(0x0, 1)` is a TLB hit: it returns
(with physical address `0x3F000`) and page 0 is not resident afterwards. -/
theorem translation_guarantee_counterexample :
    Reachable source_config 1 (after source_config 1 (fill_trace_zero ++ [0xC8000])) ∧
    (process_address source_config (after source_config 1 (fill_trace_zero ++ [0xC8000]))
        0x0 1).map (fun r => ((r.1.page_table (0x0 >>> 12)).valid, r.2)) =
      some (false, 0x3F000) :=
  ⟨after_reachable (by decide) (by decide!), by decide!⟩

/-- C3, amended (translation guarantee).  For every reachable state and every address
`a` whose page `p = a >> 12` lies inside the page table (every 32-bit address in the
configuration of main.c): when `process_address(a, policy)` returns, the physical
address produced is `(page_table[p].frame_number << 12) | (a & 0xFFF)` for the page table
at return time, and page `p` is resident at return time exactly when `search_tlb(p)`
returned `-1` or `p` was resident before the call; the call does return unless, under
LRU, `lru_counter` has reached `INT_MAX`. -/
theorem translation_guarantee (c : Config) (policy : Int) (hc : c.WellFormed) (s : State)
    (hs : Reachable c policy s) (a : Nat) (hp : a >>> 12 < c.PAGE_TABLE_SIZE) :
    (∀ (s1 : State) (physical : Nat), process_address c s a policy = some (s1, physical) →
        physical = ((s1.page_table (a >>> 12)).frame_number <<< 12) ||| (a &&& 0xFFF) ∧
        ((s1.page_table (a >>> 12)).valid = true ↔
          (search_tlb c s (a >>> 12) = -1 ∨ (s.page_table (a >>> 12)).valid = true))) ∧
    ((policy = 0 → s.lru_counter < INT_MAX) →
        ∃ (s1 : State) (physical : Nat), process_address c s a policy = some (s1, physical)) := by
  have hi := reachable_inv hc hs
  have hF20 : c.FRAME_COUNT ≤ 2 ^ 20 := by
    obtain ⟨_, h2, h3, _, _⟩ := hc; omega
  refine ⟨?_, fun hctr => process_address_returns hc hi a policy hp hctr⟩
  intro s1 physical h
  rcases process_address_cases c s s1 a physical policy h with
    ⟨_, ⟨hit, _, rfl, rfl⟩ | ⟨miss, hres, _, rfl, rfl⟩ | ⟨miss, _, s2, hpf, _, rfl, rfl⟩⟩
  · have hfr := search_tlb_hit_frame hc hs hit
    refine ⟨?_, ?_⟩
    · rw [touch_frame_number, hfr]
      exact physical_address_natCast (by have := hi.frames_lt (a >>> 12); omega) a
    · rw [touch_valid]
      constructor
      · intro hv; exact Or.inr hv
      · rintro (h1 | h1)
        · exact absurd h1 hit
        · exact h1
  · have hlt := hi.frames_lt (a >>> 12)
    refine ⟨?_, ?_⟩
    · rw [touch_frame_number, toInt32_of_lt (by omega)]
      exact physical_address_natCast (by omega) a
    · rw [touch_valid]
      exact ⟨fun _ => Or.inl miss, fun _ => hres⟩
  · have hm := search_tlb_miss hi (by omega) miss
    obtain ⟨h2, hv2, _⟩ := inv_handle_page_fault (inv_count_miss hi) hc hp hm hpf
    have hlt := h2.frames_lt (a >>> 12)
    refine ⟨?_, ?_⟩
    · rw [touch_frame_number, toInt32_of_lt (by omega)]
      exact physical_address_natCast (by omega) a
    · rw [touch_valid]
      exact ⟨fun _ => Or.inl miss, fun _ => hv2⟩

theorem translation_guarantee_witness :
    Reachable source_config 1 (after source_config 1 (fill_trace_zero ++ [0xC8000])) ∧
    search_tlb source_config (after source_config 1 (fill_trace_zero ++ [0xC8000]))
      (0x0 >>> 12) ≠ -1 ∧
    ((after source_config 1 (fill_trace_zero ++ [0xC8000])).page_table (0x0 >>> 12)).valid
      = false ∧
    ∃ (s1 : State) (physical : Nat),
      process_address source_config (after source_config 1 (fill_trace_zero ++ [0xC8000]))
        0x0 1 = some (s1, physical) ∧
      physical = ((s1.page_table (0x0 >>> 12)).frame_number <<< 12) ||| (0x0 &&& 0xFFF) ∧
      (s1.page_table (0x0 >>> 12)).valid = false := by
  have hr : Reachable source_config 1 (after source_config 1 (fill_trace_zero ++ [0xC8000])) :=
    after_reachable (by decide) (by decide!)
  have hit : search_tlb source_config (after source_config 1 (fill_trace_zero ++ [0xC8000]))
      (0x0 >>> 12) ≠ -1 := by decide!
  have hnv : ((after source_config 1 (fill_trace_zero ++ [0xC8000])).page_table
      (0x0 >>> 12)).valid = false := by decide!
  have h := translation_guarantee source_config 1 source_config_wellFormed _ hr 0x0 (by decide)
  obtain ⟨s1, physical, hstep⟩ := h.2 (fun e => absurd e (by decide))
  obtain ⟨h1, h2⟩ := h.1 s1 physical hstep
  refine ⟨hr, hit, hnv, s1, physical, hstep, h1, ?_⟩
  cases hv : (s1.page_table (0x0 >>> 12)).valid with
  | false => rfl
  | true =>
    rcases h2.mp hv with h3 | h3
    · exact absurd h3 hit
    · rw [hnv] at h3; exact absurd h3 (by simp)

/-! ## C4: the effect of an LRU eviction -/

theorem fill_trace_zero_facts :
    (run source_config 0 (initial source_config) fill_trace_zero).isSome = true ∧
    find_free_frame source_config (after source_config 0 fill_trace_zero) = -1 ∧
    ((after source_config 0 fill_trace_zero).page_table 200).valid = false ∧
    ((after source_config 0 fill_trace_zero).page_table 64).valid = true ∧
    ((after source_config 0 fill_trace_zero).page_table 64).lru_counter < INT_MAX ∧
    ((after source_config 0 fill_trace_zero).page_table 64).frame_number = 0 ∧
    ((after source_config 0 fill_trace_zero).page_table 0).valid = true ∧
    ((after source_config 0 fill_trace_zero).page_table 0).frame_number = 63 ∧
    (∀ i ∈ fill_trace_zero.map (fun a => a >>> 12),
      ((after source_config 0 fill_trace_zero).page_table i).valid = true →
      ((after source_config 0 fill_trace_zero).page_table 64).lru_counter ≤
        ((after source_config 0 fill_trace_zero).page_table i).lru_counter ∧
      (i < 64 → ((after source_config 0 fill_trace_zero).page_table 64).lru_counter <
        ((after source_config 0 fill_trace_zero).page_table i).lru_counter)) := by
  decide!

/-- C4 (LRU eviction effect) does not hold for main.c.  In the configuration of
main.c take the state reached under LRU by touching the pages 64, ..., 126 and then
page 0.  No frame is free, page 200 is not resident, and the valid page with the smallest
`lru_counter` is page 64, which holds frame 0.  After `handle_page_fault(200, 0)` page 64
is still valid, the previously valid page 0 (the most recently used one) is no longer
valid, and page 200 holds frame 63, not the frame 0 of page 64. -/
theorem lru_eviction_effect_fails :
    Reachable source_config 0 (after source_config 0 fill_trace_zero) ∧
    find_free_frame source_config (after source_config 0 fill_trace_zero) = -1 ∧
    ((after source_config 0 fill_trace_zero).page_table 200).valid = false ∧
    (lru_scan (after source_config 0 fill_trace_zero).page_table
      source_config.PAGE_TABLE_SIZE).1 = ((64 : Nat) : Int) ∧
    ((after source_config 0 fill_trace_zero).page_table 64).frame_number = 0 ∧
    ((after source_config 0 fill_trace_zero).page_table 0).valid = true ∧
    handle_page_fault source_config (after source_config 0 fill_trace_zero) 200 0 =
      some (bind_frame source_config (evict (after source_config 0 fill_trace_zero) 0) 200 63) ∧
    ((bind_frame source_config (evict (after source_config 0 fill_trace_zero) 0) 200
      63).page_table 64).valid = true ∧
    ((bind_frame source_config (evict (after source_config 0 fill_trace_zero) 0) 200
      63).page_table 0).valid = false ∧
    ((bind_frame source_config (evict (after source_config 0 fill_trace_zero) 0) 200
      63).page_table 200).frame_number = 63 := by
  obtain ⟨h1, h2, h3, h4, h5, h6, h7, h8, h9⟩ := fill_trace_zero_facts
  have hscan : (lru_scan (after source_config 0 fill_trace_zero).page_table
      source_config.PAGE_TABLE_SIZE).1 = ((64 : Nat) : Int) := by
    refine lru_scan_eq _ _ 64 (fill_trace_zero.map (fun a => a >>> 12)) ?_ (by decide) h4 h5 h9
    intro i hv
    obtain ⟨a, ha, e⟩ := after_valid_subset (by decide) h1 i hv
    exact List.mem_map.mpr ⟨a, ha, e.symm⟩
  have hpf := handle_page_fault_lru source_config source_config_wellFormed
    (after source_config 0 fill_trace_zero) 200 64 h2 hscan
    (by rw [h6]; decide) (by rw [h6, h8]; decide)
  rw [h6, h8] at hpf
  refine ⟨after_reachable (by decide) h1, h2, h3, hscan, h6, h7, hpf, ?_, ?_, ?_⟩
  · simp [bind_frame, evict, store_apply, h4]
  · simp [bind_frame, evict, store_apply]
  · simp [bind_frame, evict, store_apply]

/-! ## C5: references to pages that are not resident -/

/-- C5, counterexample.  In the configuration of main.c, under Second-Chance, after the
pages 64, ..., 126, 0, 200 have been touched (65 misses, 65 page faults, no hit) page 0
is not resident, yet `process_address(0x0, 1)` counts a TLB hit: afterwards
`tlb_hits = 1`, `tlb_miss = 65` and `page_faults = 65`. -/
theorem nonresident_reference_counterexample :
    Reachable source_config 1 (after source_config 1 (fill_trace_zero ++ [0xC8000])) ∧
    ((after source_config 1 (fill_trace_zero ++ [0xC8000])).page_table (0x0 >>> 12)).valid
      = false ∧
    (after source_config 1 (fill_trace_zero ++ [0xC8000])).tlb_hits = 0 ∧
    (after source_config 1 (fill_trace_zero ++ [0xC8000])).tlb_miss = 65 ∧
    (after source_config 1 (fill_trace_zero ++ [0xC8000])).page_faults = 65 ∧
    (process_address source_config (after source_config 1 (fill_trace_zero ++ [0xC8000]))
        0x0 1).map (fun r => (r.1.tlb_hits, r.1.tlb_miss, r.1.page_faults)) =
      some (1, 65, 65) :=
  ⟨after_reachable (by decide) (by decide!), by decide!, by decide!, by decide!, by decide!,
    by decide!⟩

theorem single_frame_wellFormed : single_frame_config.WellFormed := by decide

/-- The end-to-end scenario under LRU with a single frame: the second reference evicts
page 0 and the third reference hits the TLB slot page 0 still has. -/
theorem single_frame_lru :
    (run single_frame_config 0 (initial single_frame_config) [0x0, 0x1000, 0x0]).isSome = true ∧
    (after single_frame_config 0 [0x0, 0x1000, 0x0]).page_faults = 2 ∧
    (after single_frame_config 0 [0x0, 0x1000, 0x0]).tlb_miss = 2 ∧
    (after single_frame_config 0 [0x0, 0x1000, 0x0]).tlb_hits = 1 ∧
    ((after single_frame_config 0 [0x0, 0x1000]).page_table 0).valid = false := by
  have h1 : (run single_frame_config 0 (initial single_frame_config) [0x0]).isSome = true := by
    decide!
  have hv0 : ((after single_frame_config 0 [0x0]).page_table 0).valid = true := by decide!
  have hc0 : ((after single_frame_config 0 [0x0]).page_table 0).lru_counter = 0 := by decide!
  have hf0 : ((after single_frame_config 0 [0x0]).page_table 0).frame_number = 0 := by decide!
  have hscan : (lru_scan (after single_frame_config 0 [0x0]).page_table
      single_frame_config.PAGE_TABLE_SIZE).1 = ((0 : Nat) : Int) := by
    refine lru_scan_eq _ _ 0 [0] ?_ (by decide) hv0 (by rw [hc0]; decide) ?_
    · intro i hv
      obtain ⟨a, ha, e⟩ := after_valid_subset (by decide) h1 i hv
      rw [List.mem_singleton.mp ha] at e
      rw [e]; simp
    · intro i hi _
      rw [List.mem_singleton.mp hi]
      exact ⟨le_refl _, fun h => absurd h (by omega)⟩
  have hstep2 := process_address_lru_fault single_frame_config single_frame_wellFormed
    (after single_frame_config 0 [0x0]) 0x1000 0 (by decide) (by decide!) (by decide!)
    (by decide!) hscan (by rw [hf0]; decide) (by rw [hf0, hf0]; decide) (by decide!)
  rw [hf0, hf0] at hstep2
  have h2 : (run single_frame_config 0 (initial single_frame_config) [0x0, 0x1000]).isSome
      = true := by
    have := run_snoc h1 hstep2
    rw [show ([0x0] ++ [0x1000] : List Nat) = [0x0, 0x1000] from rfl] at this
    rw [this]; rfl
  have e2 := after_snoc h1 hstep2
  rw [show ([0x0] ++ [0x1000] : List Nat) = [0x0, 0x1000] from rfl] at e2
  have hstep3 : process_address single_frame_config (after single_frame_config 0 [0x0, 0x1000])
      0x0 0 = _ :=
    process_address_hit single_frame_config _ 0x0 0 (by decide) (by rw [e2]; decide!)
      (fun _ => by rw [e2]; decide!)
  have h3 := run_snoc h2 hstep3
  have e3 := after_snoc h2 hstep3
  rw [show ([0x0, 0x1000] ++ [0x0] : List Nat) = [0x0, 0x1000, 0x0] from rfl] at h3 e3
  refine ⟨by rw [h3]; rfl, ?_, ?_, ?_, ?_⟩
  · rw [e3, touch_page_faults, e2]; decide!
  · rw [e3, touch_tlb_miss, e2]; decide!
  · rw [e3, touch_tlb_hits, e2]; decide!
  · rw [e2]; decide!

/-- C5, amended (references to pages that are not resident).  For every reachable state
and every address whose page is not resident (`valid == false`) and has no valid TLB
slot (`search_tlb` returns `-1`), `process_address` counts the reference as a page fault:
when it returns, `page_faults` and `tlb_miss` have each increased by one and `tlb_hits`
is unchanged, and it does return unless, under LRU, `lru_counter` has reached `INT_MAX`.
With a single physical frame, from the initial state, the trace `0x00000000`,
`0x00001000`, `0x00000000` ends with `page_faults = 2`, `tlb_miss = 2`, `tlb_hits = 1`
under either policy: the third reference hits the TLB slot that page 0 keeps after its
eviction. -/
theorem nonresident_reference_faults :
    (∀ (c : Config) (policy : Int) (s : State) (a : Nat), c.WellFormed →
        Reachable c policy s → a >>> 12 < c.PAGE_TABLE_SIZE →
        (s.page_table (a >>> 12)).valid = false → search_tlb c s (a >>> 12) = -1 →
        (∀ (s1 : State) (physical : Nat), process_address c s a policy = some (s1, physical) →
          s1.page_faults = s.page_faults + 1 ∧ s1.tlb_miss = s.tlb_miss + 1 ∧
          s1.tlb_hits = s.tlb_hits) ∧
        ((policy = 0 → s.lru_counter < INT_MAX) →
          ∃ (s1 : State) (physical : Nat),
            process_address c s a policy = some (s1, physical))) ∧
    (∀ policy : Int, policy = 0 ∨ policy = 1 →
        (run single_frame_config policy (initial single_frame_config)
          [0x0, 0x1000, 0x0]).isSome = true ∧
        (after single_frame_config policy [0x0, 0x1000, 0x0]).page_faults = 2 ∧
        (after single_frame_config policy [0x0, 0x1000, 0x0]).tlb_miss = 2 ∧
        (after single_frame_config policy [0x0, 0x1000, 0x0]).tlb_hits = 1) := by
  refine ⟨?_, ?_⟩
  · intro c policy s a hc hs hp hnr hmiss
    have hi := reachable_inv hc hs
    have h31 : c.FRAME_COUNT ≤ 2 ^ 31 := by
      obtain ⟨_, h2, h3, _, _⟩ := hc; omega
    refine ⟨?_, fun hctr => process_address_returns hc hi a policy hp hctr⟩
    intro s1 physical h
    rcases process_address_stats h31 h with ⟨h1, _⟩ | ⟨_, h1, _⟩ | ⟨_, _, h3, h4, h5⟩
    · exact absurd hmiss h1
    · rw [hnr] at h1; exact absurd h1 (by simp)
    · exact ⟨h5, h4, h3⟩
  · intro policy hpol
    rcases hpol with rfl | rfl
    · obtain ⟨h1, h2, h3, h4, _⟩ := single_frame_lru
      exact ⟨h1, h2, h3, h4⟩
    · exact ⟨by decide!, by decide!, by decide!, by decide!⟩

theorem nonresident_reference_faults_witness :
    Reachable source_config 0 (after source_config 0 [0x5000]) ∧
    ((after source_config 0 [0x5000]).page_table (0x6123 >>> 12)).valid = false ∧
    search_tlb source_config (after source_config 0 [0x5000]) (0x6123 >>> 12) = -1 ∧
    (∃ (s1 : State) (physical : Nat),
      process_address source_config (after source_config 0 [0x5000]) 0x6123 0 =
        some (s1, physical) ∧
      s1.page_faults = (after source_config 0 [0x5000]).page_faults + 1 ∧
      s1.tlb_miss = (after source_config 0 [0x5000]).tlb_miss + 1 ∧
      s1.tlb_hits = (after source_config 0 [0x5000]).tlb_hits) ∧
    (after single_frame_config 1 [0x0, 0x1000, 0x0]).tlb_hits = 1 := by
  have hr : Reachable source_config 0 (after source_config 0 [0x5000]) :=
    after_reachable (by decide) (by decide!)
  have hv : ((after source_config 0 [0x5000]).page_table (0x6123 >>> 12)).valid = false := by
    decide!
  have hm : search_tlb source_config (after source_config 0 [0x5000]) (0x6123 >>> 12) = -1 := by
    decide!
  have h := nonresident_reference_faults.1 source_config 0 _ 0x6123 source_config_wellFormed hr
    (by decide) hv hm
  obtain ⟨s1, physical, hstep⟩ := h.2 (fun _ => by decide!)
  exact ⟨hr, hv, hm, ⟨s1, physical, hstep, h.1 s1 physical hstep⟩,
    (nonresident_reference_faults.2 1 (Or.inr rfl)).2.2.2⟩

/-! ## C6: statistics accounting -/

/-- C6 (statistics accounting).  For every well-formed configuration and every policy:
(a) after any sequence of `n` calls of `process_address` from the initial state,
`tlb_hits + tlb_miss = n` and `page_faults ≤ tlb_miss`; (b) each call increases exactly
one of `tlb_hits`, `tlb_miss` by exactly one and `page_faults` by at most one, so no
counter ever decreases; (c) such a sequence of calls does return whenever every page
number lies inside the page table and, under LRU, the clock `lru_counter` does not
overflow. -/
theorem stats_accounting (c : Config) (policy : Int) (hc : c.WellFormed) :
    (∀ (trace : List Nat) (s : State), run c policy (initial c) trace = some s →
        s.tlb_hits + s.tlb_miss = (trace.length : Int) ∧ s.page_faults ≤ s.tlb_miss ∧
        0 ≤ s.tlb_hits ∧ 0 ≤ s.tlb_miss ∧ 0 ≤ s.page_faults) ∧
    (∀ (s s1 : State) (a physical : Nat),
        process_address c s a policy = some (s1, physical) →
        ((s1.tlb_hits = s.tlb_hits + 1 ∧ s1.tlb_miss = s.tlb_miss) ∨
         (s1.tlb_hits = s.tlb_hits ∧ s1.tlb_miss = s.tlb_miss + 1)) ∧
        (s1.page_faults = s.page_faults ∨ s1.page_faults = s.page_faults + 1) ∧
        s.tlb_hits ≤ s1.tlb_hits ∧ s.tlb_miss ≤ s1.tlb_miss ∧
        s.page_faults ≤ s1.page_faults) ∧
    (∀ trace : List Nat, (∀ a ∈ trace, a >>> 12 < c.PAGE_TABLE_SIZE) →
        (policy = 0 → (trace.length : Int) ≤ INT_MAX) →
        ∃ s, run c policy (initial c) trace = some s) := by
  have h31 : c.FRAME_COUNT ≤ 2 ^ 31 := by
    obtain ⟨_, h2, h3, _, _⟩ := hc; omega
  refine ⟨?_, ?_, ?_⟩
  · intro trace s h
    have h1 := run_stats h31 trace _ _ h
    have e1 : (initial c).tlb_hits = 0 := rfl
    have e2 : (initial c).tlb_miss = 0 := rfl
    have e3 : (initial c).page_faults = 0 := rfl
    rw [e1, e2, e3] at h1
    omega
  · intro s s1 a physical h
    have h1 := process_address_stats h31 h
    omega
  · intro trace hp hclock
    refine run_returns hc trace _ (inv_initial c hc) hp ?_
    intro e
    have e1 : (initial c).lru_counter = 0 := rfl
    rw [e1]
    have := hclock e
    omega

theorem stats_accounting_witness :
    source_config.WellFormed ∧
    ∃ s, run source_config 0 (initial source_config) [0x0, 0x1000, 0x0] = some s ∧
      s.tlb_hits + s.tlb_miss = 3 ∧ s.page_faults ≤ s.tlb_miss := by
  have h := stats_accounting source_config 0 source_config_wellFormed
  obtain ⟨s, hs⟩ := h.2.2 [0x0, 0x1000, 0x0] (by decide) (by decide)
  exact ⟨source_config_wellFormed, s, hs, (h.1 _ s hs).1, (h.1 _ s hs).2.1⟩

/-! ## C7: TLB consistency on hit -/

/-- C7 (TLB consistency on hit).  In every state reachable by `process_address` calls,
for every page `p`: if `search_tlb(p)` returns a frame `f` other than `-1` and page `p`
is valid in the page table, then `page_table[p].frame_number == f`. -/
theorem tlb_consistency_on_hit (c : Config) (policy : Int) (hc : c.WellFormed) (s : State)
    (hs : Reachable c policy s) (p : Nat) (f : Int)
    (hf : search_tlb c s p = f) (hne : f ≠ -1)
    (hv : (s.page_table p).valid = true) :
    ((s.page_table p).frame_number : Int) = f := by
  have hi := reachable_inv hc hs
  have h31 : c.FRAME_COUNT ≤ 2 ^ 31 := by
    obtain ⟨_, h2, h3, _, _⟩ := hc; omega
  subst hf
  obtain ⟨j, hj, hvj, hpj, hres⟩ := search_tlb_hit hne
  have hlt := hi.tlb_frames j
  rw [hres, toInt32_of_lt (by omega)]
  have := hi.tlb_consistent j hj hvj (by rw [hpj]; exact hv)
  rw [hpj] at this
  rw [this]

theorem tlb_consistency_on_hit_witness :
    Reachable source_config 0 (after source_config 0 [0x5000, 0x6000]) ∧
    search_tlb source_config (after source_config 0 [0x5000, 0x6000]) 5 = 0 ∧
    ((after source_config 0 [0x5000, 0x6000]).page_table 5).valid = true ∧
    ((((after source_config 0 [0x5000, 0x6000]).page_table 5).frame_number : Nat) : Int) = 0 :=
  have hr : Reachable source_config 0 (after source_config 0 [0x5000, 0x6000]) :=
    after_reachable (by decide) (by decide!)
  have h1 : search_tlb source_config (after source_config 0 [0x5000, 0x6000]) 5 = 0 := by
    decide!
  have h2 : ((after source_config 0 [0x5000, 0x6000]).page_table 5).valid = true := by decide!
  ⟨hr, h1, h2,
    tlb_consistency_on_hit source_config 0 source_config_wellFormed _ hr 5 0 h1 (by decide) h2⟩

/-! ## C8: Second-Chance termination -/

/-- C8 (Second-Chance termination).  For every page table (any valid and reference
bits) and every cursor position in `[0, PAGE_TABLE_SIZE)`, `second_chance_replacement`
returns after advancing the cursor exactly `k` times for some `k ≤ 2 * PAGE_TABLE_SIZE`
(the scan needs `k + 1` iterations: fuel `k` is not enough, fuel `k + 1` is), and the
entry at the cursor when it returns has `reference == false`. -/
theorem second_chance_termination (c : Config) (s : State)
    (hq : s.pointer < c.PAGE_TABLE_SIZE) :
    ∃ (k : Nat) (s1 : State) (r : Int),
      k ≤ 2 * c.PAGE_TABLE_SIZE ∧
      second_chance_loop c k s.page_table s.pointer = none ∧
      second_chance_loop c (k + 1) s.page_table s.pointer =
        some (s1.page_table, s1.pointer, r) ∧
      second_chance_replacement c s = some (s1, r) ∧
      s1.pointer = (s.pointer + k) % c.PAGE_TABLE_SIZE ∧
      (s1.page_table s1.pointer).reference = false := by
  have hN : 0 < c.PAGE_TABLE_SIZE := by omega
  obtain ⟨k, pt1, q1, hk, hnone, hsome, hrf, _, hq1, _⟩ :=
    second_chance_loop_terminates c hN s.page_table s.pointer hq
  have hfuel := second_chance_loop_mono c (k + 1) (c.PAGE_TABLE_SIZE - k) _ _ _ hsome
  have e : k + 1 + (c.PAGE_TABLE_SIZE - k) = c.PAGE_TABLE_SIZE + 1 := by omega
  rw [e] at hfuel
  refine ⟨k, { s with page_table := pt1, pointer := q1 }, toInt32 (pt1 q1).frame_number,
    by omega, hnone, hsome, ?_, hq1, hrf⟩
  simp [second_chance_replacement, hfuel]

theorem second_chance_termination_witness :
    (after source_config 1 [0x0, 0x1000]).pointer < source_config.PAGE_TABLE_SIZE ∧
    ∃ (k : Nat) (s1 : State) (r : Int),
      k ≤ 2 * source_config.PAGE_TABLE_SIZE ∧
      second_chance_loop source_config k (after source_config 1 [0x0, 0x1000]).page_table
        (after source_config 1 [0x0, 0x1000]).pointer = none ∧
      second_chance_loop source_config (k + 1) (after source_config 1 [0x0, 0x1000]).page_table
        (after source_config 1 [0x0, 0x1000]).pointer = some (s1.page_table, s1.pointer, r) ∧
      second_chance_replacement source_config (after source_config 1 [0x0, 0x1000]) =
        some (s1, r) ∧
      s1.pointer = ((after source_config 1 [0x0, 0x1000]).pointer + k) %
        source_config.PAGE_TABLE_SIZE ∧
      (s1.page_table s1.pointer).reference = false :=
  ⟨by decide!, second_chance_termination source_config (after source_config 1 [0x0, 0x1000])
    (by decide!)⟩

/-! ## C9: Second-Chance and invalid entries -/

/-- C9 (Second-Chance skips invalid entries) does not hold for main.c.  In the
configuration of main.c take the state reached under Second-Chance by touching the
pages 64, ..., 126 and then page 0: 64 pages are resident, no frame is free and the
cursor is 0.  `second_chance_replacement` clears the reference bit of page 0, advances
once and stops at cursor 1, an entry that is not valid; it returns the frame number 0
stored there. -/
theorem second_chance_selects_invalid :
    Reachable source_config 1 (after source_config 1 fill_trace_zero) ∧
    find_free_frame source_config (after source_config 1 fill_trace_zero) = -1 ∧
    (after source_config 1 fill_trace_zero).pointer = 0 ∧
    ((after source_config 1 fill_trace_zero).page_table 0).valid = true ∧
    ((after source_config 1 fill_trace_zero).page_table 64).valid = true ∧
    (second_chance_replacement source_config (after source_config 1 fill_trace_zero)).map
      (fun r => (r.1.pointer, (r.1.page_table r.1.pointer).valid, r.2)) = some (1, false, 0) :=
  ⟨after_reachable (by decide) (by decide!), by decide!, by decide!, by decide!, by decide!,
    by decide!⟩

/-! ## C10: the value returned by `lru_replacement` -/

/-- C10 (LRU victim selection) does not hold for main.c.  After the single
reference `0x5000` under LRU, page 5 is the only valid page (frame 0, counter 0); the
scan of `lru_replacement` ends with `oldest = 5`, but the function returns
`page_table[5].frame_number = 0`, not the page number 5. -/
theorem lru_replacement_returns_frame :
    Reachable source_config 0 (after source_config 0 [0x5000]) ∧
    ((after source_config 0 [0x5000]).page_table 5).valid = true ∧
    ((after source_config 0 [0x5000]).page_table 5).lru_counter = 0 ∧
    (∀ i, ((after source_config 0 [0x5000]).page_table i).valid = true → i = 5) ∧
    (lru_scan (after source_config 0 [0x5000]).page_table source_config.PAGE_TABLE_SIZE).1
      = ((5 : Nat) : Int) ∧
    lru_replacement source_config (after source_config 0 [0x5000]) = some 0 := by
  have hsome : (run source_config 0 (initial source_config) [0x5000]).isSome = true := by
    decide!
  have honly : ∀ i, ((after source_config 0 [0x5000]).page_table i).valid = true → i = 5 := by
    intro i hv
    obtain ⟨a, ha, e⟩ := after_valid_subset (by decide) hsome i hv
    rw [List.mem_singleton.mp ha] at e
    exact e
  have hv5 : ((after source_config 0 [0x5000]).page_table 5).valid = true := by decide!
  have hc5 : ((after source_config 0 [0x5000]).page_table 5).lru_counter = 0 := by decide!
  have hscan : (lru_scan (after source_config 0 [0x5000]).page_table
      source_config.PAGE_TABLE_SIZE).1 = ((5 : Nat) : Int) := by
    refine lru_scan_eq _ _ 5 [5] (fun i hv => by rw [honly i hv]; simp) (by decide) hv5
      (by rw [hc5]; decide) ?_
    intro i hi _
    rw [List.mem_singleton.mp hi]
    exact ⟨le_refl _, fun h => absurd h (by omega)⟩
  have hf5 : ((after source_config 0 [0x5000]).page_table 5).frame_number = 0 := by decide!
  have hl := lru_replacement_eq source_config _ 5 hscan
  rw [hf5] at hl
  exact ⟨after_reachable (by decide) hsome, hv5, hc5, honly, hscan, hl⟩

/-! ## C11: duplicate TLB entries -/

/-- C11 (no duplicate TLB entries) does not hold for main.c.  After the single reference
`0x0` from the initial state, under LRU and under Second-Chance alike, the two distinct
TLB slots 0 and 1 are both valid and both hold page 0: the page fault refills the TLB in
`handle_page_fault` (line 125) and once more in `process_address` (line 143). -/
theorem tlb_duplicate_after_fault :
    (Reachable source_config 0 (after source_config 0 [0x0]) ∧
      ((after source_config 0 [0x0]).tlb 0).valid = true ∧
      ((after source_config 0 [0x0]).tlb 1).valid = true ∧
      ((after source_config 0 [0x0]).tlb 0).page_number = 0 ∧
      ((after source_config 0 [0x0]).tlb 1).page_number = 0 ∧
      (after source_config 0 [0x0]).tlb_index = 2) ∧
    (Reachable source_config 1 (after source_config 1 [0x0]) ∧
      ((after source_config 1 [0x0]).tlb 0).valid = true ∧
      ((after source_config 1 [0x0]).tlb 1).valid = true ∧
      ((after source_config 1 [0x0]).tlb 0).page_number = 0 ∧
      ((after source_config 1 [0x0]).tlb 1).page_number = 0 ∧
      (after source_config 1 [0x0]).tlb_index = 2) :=
  ⟨⟨after_reachable (by decide) (by decide!), by decide!, by decide!, by decide!, by decide!,
      by decide!⟩,
    ⟨after_reachable (by decide) (by decide!), by decide!, by decide!, by decide!, by decide!,
      by decide!⟩⟩

/-! ## C12: idempotent hit -/

theorem search_tlb_congr {c : Config} {s s1 : State} (h : s1.tlb = s.tlb) (p : Nat) :
    search_tlb c s1 p = search_tlb c s p := by
  unfold search_tlb; rw [h]

/-- C12 (idempotent hit).  For every state (reachable or not) and every address `a`
whose processing is a TLB hit: when the call `process_address(a, policy)` has returned,
calling it again immediately afterwards produces the same physical address, increases
`tlb_hits` by exactly one and leaves `tlb_miss` and `page_faults` unchanged; the second
call does return unless, under LRU, `lru_counter` has reached `INT_MAX`. -/
theorem idempotent_hit (c : Config) (policy : Int) (s s1 : State) (a physical : Nat)
    (hit : search_tlb c s (a >>> 12) ≠ -1)
    (h1 : process_address c s a policy = some (s1, physical)) :
    (∀ (s2 : State) (physical2 : Nat), process_address c s1 a policy = some (s2, physical2) →
        physical2 = physical ∧ s2.tlb_hits = s1.tlb_hits + 1 ∧
        s2.tlb_miss = s1.tlb_miss ∧ s2.page_faults = s1.page_faults) ∧
    ((policy = 0 → s1.lru_counter < INT_MAX) →
        ∃ (s2 : State) (physical2 : Nat),
          process_address c s1 a policy = some (s2, physical2)) := by
  rcases process_address_cases c s s1 a physical policy h1 with
    ⟨hp, ⟨_, _, hs1, hph⟩ | ⟨miss, _⟩ | ⟨miss, _⟩⟩
  · have htlb : s1.tlb = s.tlb := by rw [hs1, touch_tlb]; rfl
    have hit1 : search_tlb c s1 (a >>> 12) ≠ -1 := by
      rw [search_tlb_congr htlb]; exact hit
    refine ⟨?_, fun hctr => ⟨_, _, process_address_hit c s1 a policy hp hit1 hctr⟩⟩
    intro s2 physical2 h2
    rcases process_address_cases c s1 s2 a physical2 policy h2 with
      ⟨_, ⟨_, _, hs2, hph2⟩ | ⟨miss, _⟩ | ⟨miss, _⟩⟩
    · refine ⟨?_, ?_, ?_, ?_⟩
      · rw [hph2, hph, search_tlb_congr htlb]
      · rw [hs2, touch_tlb_hits]; rfl
      · rw [hs2, touch_tlb_miss]; rfl
      · rw [hs2, touch_page_faults]; rfl
    · exact absurd miss hit1
    · exact absurd miss hit1
  · exact absurd miss hit
  · exact absurd miss hit

theorem idempotent_hit_witness :
    search_tlb source_config (after source_config 0 [0x5000]) (0x5123 >>> 12) ≠ -1 ∧
    ∃ (s1 s2 : State) (physical : Nat),
      process_address source_config (after source_config 0 [0x5000]) 0x5123 0 =
        some (s1, physical) ∧
      process_address source_config s1 0x5123 0 = some (s2, physical) ∧
      s2.tlb_hits = s1.tlb_hits + 1 ∧ s2.tlb_miss = s1.tlb_miss ∧
      s2.page_faults = s1.page_faults := by
  have hit : search_tlb source_config (after source_config 0 [0x5000]) (0x5123 >>> 12) ≠ -1 := by
    decide!
  have h1 := process_address_hit source_config (after source_config 0 [0x5000]) 0x5123 0
    (by decide) hit (fun _ => by decide!)
  have h := idempotent_hit source_config 0 _ _ 0x5123 _ hit h1
  obtain ⟨s2, physical2, h2⟩ := h.2 (fun _ => by
    rw [touch]; simp only [if_true]; decide!)
  obtain ⟨e, r1, r2, r3⟩ := h.1 s2 physical2 h2
  rw [e] at h2
  exact ⟨hit, _, s2, _, h1, h2, r1, r2, r3⟩

/-! ## C13: a TLB miss on a resident page -/

theorem toUInt32_toInt32_of_lt32 {x : Nat} (h : x < 2 ^ 32) : toUInt32 (toInt32 x) = x := by
  unfold toInt32 toUInt32
  have h1 : x % 2 ^ 32 = x := Nat.mod_eq_of_lt h
  rw [h1]
  split
  · have : ((x : Int) % 2 ^ 32) = (x : Int) := Int.emod_eq_of_lt (by omega) (by omega)
    rw [this]; simp
  · have : (((x : Int) - 2 ^ 32) % 2 ^ 32) = (x : Int) := by omega
    rw [this]; simp

/-- When no valid slot of the TLB holds the page, `search_tlb` returns `-1`. -/
theorem search_tlb_eq_neg_one {c : Config} {s : State} {p : Nat}
    (h : ∀ j, j < c.TLB_SIZE → ¬ ((s.tlb j).valid = true ∧ (s.tlb j).page_number = p)) :
    search_tlb c s p = -1 := by
  rcases search_tlb_loop_spec s.tlb p c.TLB_SIZE 0 with ⟨h1, _⟩ | ⟨j, _, h2, h3, h4, _, _⟩
  · exact h1
  · exact absurd ⟨h3, h4⟩ (h j (by omega))

/-- C13 (a resident TLB miss is not a fault).  For every state and every address whose
page `p` lies inside the page table, is valid in the page table and has no valid TLB
slot, `process_address` returns (unless, under LRU, `lru_counter` has reached
`INT_MAX`), increases `tlb_miss` by one, leaves `page_faults`, `tlb_hits`, `frame_usage`
and the valid flag and frame number of every page-table entry unchanged, writes
`(p, page_table[p].frame_number)` into the TLB slot at the FIFO cursor and into no other
slot, and advances the cursor by one modulo `TLB_SIZE`.  (`hfr` says that the stored
frame number is a `uint32_t`.) -/
theorem resident_miss_is_not_a_fault (c : Config) (policy : Int) (s : State) (a : Nat)
    (hp : a >>> 12 < c.PAGE_TABLE_SIZE)
    (hres : (s.page_table (a >>> 12)).valid = true)
    (hno : ∀ j, j < c.TLB_SIZE →
      ¬ ((s.tlb j).valid = true ∧ (s.tlb j).page_number = a >>> 12))
    (hfr : (s.page_table (a >>> 12)).frame_number < 2 ^ 32)
    (hctr : policy = 0 → s.lru_counter < INT_MAX) :
    ∃ (s1 : State) (physical : Nat), process_address c s a policy = some (s1, physical) ∧
      s1.tlb_miss = s.tlb_miss + 1 ∧ s1.page_faults = s.page_faults ∧
      s1.tlb_hits = s.tlb_hits ∧ s1.frame_usage = s.frame_usage ∧
      (∀ i, (s1.page_table i).valid = (s.page_table i).valid ∧
        (s1.page_table i).frame_number = (s.page_table i).frame_number) ∧
      s1.tlb s.tlb_index = ⟨a >>> 12, (s.page_table (a >>> 12)).frame_number, true⟩ ∧
      (∀ j, j ≠ s.tlb_index → s1.tlb j = s.tlb j) ∧
      s1.tlb_index = (s.tlb_index + 1) % c.TLB_SIZE := by
  have miss := search_tlb_eq_neg_one hno
  have h := process_address_resident_miss c s a policy hp miss hres hctr
  rw [toUInt32_toInt32_of_lt32 hfr] at h
  refine ⟨_, _, h, ?_, ?_, ?_, ?_, ?_, ?_, ?_, ?_⟩
  · rw [touch_tlb_miss]; rfl
  · rw [touch_page_faults]; rfl
  · rw [touch_tlb_hits]; rfl
  · rw [touch_frame_usage]; rfl
  · intro i
    rw [touch_valid, touch_frame_number]
    exact ⟨rfl, rfl⟩
  · rw [touch_tlb]; simp [update_tlb, count_miss]
  · intro j hj
    rw [touch_tlb]
    simp only [update_tlb, count_miss]
    exact store_other _ _ hj
  · rw [touch_tlb_index]; rfl

theorem resident_miss_is_not_a_fault_witness :
    ((after source_config 0 [0x5000, 0x6000, 0x7000, 0x8000, 0x9000, 0xA000, 0xB000, 0xC000,
      0xD000]).page_table (0x5000 >>> 12)).valid = true ∧
    (∀ j, j < source_config.TLB_SIZE →
      ¬ (((after source_config 0 [0x5000, 0x6000, 0x7000, 0x8000, 0x9000, 0xA000, 0xB000,
            0xC000, 0xD000]).tlb j).valid = true ∧
          ((after source_config 0 [0x5000, 0x6000, 0x7000, 0x8000, 0x9000, 0xA000, 0xB000,
            0xC000, 0xD000]).tlb j).page_number = 0x5000 >>> 12)) ∧
    ∃ (s1 : State) (physical : Nat),
      process_address source_config (after source_config 0 [0x5000, 0x6000, 0x7000, 0x8000,
        0x9000, 0xA000, 0xB000, 0xC000, 0xD000]) 0x5000 0 = some (s1, physical) ∧
      s1.tlb_miss = 10 ∧ s1.page_faults = 9 ∧ s1.tlb_hits = 0 ∧
      s1.tlb 2 = ⟨5, 0, true⟩ ∧ s1.tlb_index = 3 := by
  have hres : ((after source_config 0 [0x5000, 0x6000, 0x7000, 0x8000, 0x9000, 0xA000, 0xB000,
      0xC000, 0xD000]).page_table (0x5000 >>> 12)).valid = true := by decide!
  have hno : ∀ j, j < source_config.TLB_SIZE →
      ¬ (((after source_config 0 [0x5000, 0x6000, 0x7000, 0x8000, 0x9000, 0xA000, 0xB000,
            0xC000, 0xD000]).tlb j).valid = true ∧
          ((after source_config 0 [0x5000, 0x6000, 0x7000, 0x8000, 0x9000, 0xA000, 0xB000,
            0xC000, 0xD000]).tlb j).page_number = 0x5000 >>> 12) := by decide!
  obtain ⟨s1, physical, h, h1, h2, h3, _, _, h6, _, h8⟩ :=
    resident_miss_is_not_a_fault source_config 0 _ 0x5000 (by decide) hres hno (by decide!)
      (fun _ => by decide!)
  have e1 : (after source_config 0 [0x5000, 0x6000, 0x7000, 0x8000, 0x9000, 0xA000, 0xB000,
      0xC000, 0xD000]).tlb_miss = 9 := by decide!
  have e2 : (after source_config 0 [0x5000, 0x6000, 0x7000, 0x8000, 0x9000, 0xA000, 0xB000,
      0xC000, 0xD000]).page_faults = 9 := by decide!
  have e3 : (after source_config 0 [0x5000, 0x6000, 0x7000, 0x8000, 0x9000, 0xA000, 0xB000,
      0xC000, 0xD000]).tlb_hits = 0 := by decide!
  have e4 : (after source_config 0 [0x5000, 0x6000, 0x7000, 0x8000, 0x9000, 0xA000, 0xB000,
      0xC000, 0xD000]).tlb_index = 2 := by decide!
  have e5 : ((after source_config 0 [0x5000, 0x6000, 0x7000, 0x8000, 0x9000, 0xA000, 0xB000,
      0xC000, 0xD000]).page_table (0x5000 >>> 12)).frame_number = 0 := by decide!
  rw [e1] at h1
  rw [e2] at h2
  rw [e3] at h3
  rw [e4] at h6 h8
  rw [e5] at h6
  exact ⟨hres, hno, s1, physical, h, h1, h2, h3, h6, h8⟩

/-! ## C14: physical address assembly -/

/-- The address assembled from a frame index `f` and the address `a`: its low 12 bits
are the offset of `a` and the remaining bits are `f`. -/
theorem physical_address_bits {f : Nat} (hf : f < 2 ^ 20) (a : Nat) :
    physical_address ((f : Nat) : Int) a &&& 0xFFF = a &&& 0xFFF ∧
    physical_address ((f : Nat) : Int) a >>> 12 = f ∧
    physical_address ((f : Nat) : Int) a = f * PAGE_SIZE + a % PAGE_SIZE := by
  have hmask : ∀ x : Nat, x &&& 0xFFF = x % 4096 := fun x =>
    Nat.and_pow_two_sub_one_eq_mod x 12
  have hoff : a % 4096 < 2 ^ 12 := Nat.mod_lt _ (by decide)
  have hsum : physical_address ((f : Nat) : Int) a = f * 4096 + a % 4096 := by
    rw [physical_address_natCast hf, hmask, Nat.shiftLeft_eq]
    have h1 := Nat.mul_add_lt_is_or hoff f
    have h2 : f * 2 ^ 12 = 2 ^ 12 * f := Nat.mul_comm _ _
    rw [h2, ← h1]
    omega
  refine ⟨?_, ?_, hsum⟩
  · rw [hmask, hmask, hsum]; omega
  · rw [Nat.shiftRight_eq_div_pow, hsum]; omega

/-- C14 (physical address assembly).  For every reachable state and every address `a`
whose page lies inside the page table (every 32-bit address in the configuration of
main.c), `process_address` returns (unless, under LRU, `lru_counter` has reached
`INT_MAX`) and the physical address it produces has its low 12 bits equal to `a & 0xFFF`
and its remaining bits `physical >> 12` below `FRAME_COUNT`, so that
`physical < FRAME_COUNT * PAGE_SIZE`. -/
theorem physical_address_assembly (c : Config) (policy : Int) (hc : c.WellFormed) (s : State)
    (hs : Reachable c policy s) (a : Nat) (hp : a >>> 12 < c.PAGE_TABLE_SIZE) :
    (∀ (s1 : State) (physical : Nat), process_address c s a policy = some (s1, physical) →
        physical &&& 0xFFF = a &&& 0xFFF ∧ physical >>> 12 < c.FRAME_COUNT ∧
        physical < c.FRAME_COUNT * PAGE_SIZE) ∧
    ((policy = 0 → s.lru_counter < INT_MAX) →
        ∃ (s1 : State) (physical : Nat), process_address c s a policy = some (s1, physical)) := by
  have hi := reachable_inv hc hs
  have hF20 : c.FRAME_COUNT ≤ 2 ^ 20 := by
    obtain ⟨_, h2, h3, _, _⟩ := hc; omega
  refine ⟨?_, fun hctr => process_address_returns hc hi a policy hp hctr⟩
  intro s1 physical h
  -- in each case the address is assembled from a frame index below `FRAME_COUNT`
  have key : ∃ f : Nat, f < c.FRAME_COUNT ∧ physical = physical_address ((f : Nat) : Int) a := by
    rcases process_address_cases c s s1 a physical policy h with
      ⟨_, ⟨hit, _, _, hph⟩ | ⟨_, _, _, _, hph⟩ | ⟨miss, _, s2, hpf, _, _, hph⟩⟩
    · obtain ⟨j, _, _, _, hres⟩ := search_tlb_hit hit
      have hlt := hi.tlb_frames j
      refine ⟨(s.tlb j).frame_number, hlt, ?_⟩
      rw [hph, hres, toInt32_of_lt (by omega)]
    · have hlt := hi.frames_lt (a >>> 12)
      refine ⟨(s.page_table (a >>> 12)).frame_number, hlt, ?_⟩
      rw [hph, toInt32_of_lt (by omega)]
    · have hm := search_tlb_miss hi (by omega) miss
      obtain ⟨h2, _, _⟩ := inv_handle_page_fault (inv_count_miss hi) hc hp hm hpf
      have hlt := h2.frames_lt (a >>> 12)
      refine ⟨(s2.page_table (a >>> 12)).frame_number, hlt, ?_⟩
      rw [hph, toInt32_of_lt (by omega)]
  obtain ⟨f, hf, rfl⟩ := key
  obtain ⟨b1, b2, b3⟩ := physical_address_bits (show f < 2 ^ 20 by omega) a
  refine ⟨b1, by rw [b2]; exact hf, ?_⟩
  rw [b3]
  have : a % PAGE_SIZE < PAGE_SIZE := Nat.mod_lt _ (by decide)
  calc f * PAGE_SIZE + a % PAGE_SIZE < f * PAGE_SIZE + PAGE_SIZE := by omega
    _ = (f + 1) * PAGE_SIZE := by ring
    _ ≤ c.FRAME_COUNT * PAGE_SIZE := Nat.mul_le_mul_right _ hf

theorem physical_address_assembly_witness :
    Reachable source_config 0 (after source_config 0 [0x5000]) ∧
    ∃ (s1 : State) (physical : Nat),
      process_address source_config (after source_config 0 [0x5000]) 0x6123 0 =
        some (s1, physical) ∧
      physical &&& 0xFFF = 0x6123 &&& 0xFFF ∧ physical >>> 12 < source_config.FRAME_COUNT ∧
      physical < source_config.FRAME_COUNT * PAGE_SIZE := by
  have hr : Reachable source_config 0 (after source_config 0 [0x5000]) :=
    after_reachable (by decide) (by decide!)
  have h := physical_address_assembly source_config 0 source_config_wellFormed _ hr 0x6123
    (by decide)
  obtain ⟨s1, physical, hstep⟩ := h.2 (fun _ => by decide!)
  exact ⟨hr, s1, physical, hstep, h.1 s1 physical hstep⟩

/-! ## C15: a page fault with a free frame -/

/-- The function `find_free_frame` returns the smallest index `i < FRAME_COUNT` with
`frame_usage[i] == 0`, and `-1` exactly when no frame is free. -/
theorem find_free_frame_spec (c : Config) (s : State) :
    (find_free_frame c s = -1 ↔ ∀ i, i < c.FRAME_COUNT → s.frame_usage i ≠ 0) ∧
    (∀ f : Nat, find_free_frame c s = (f : Int) ↔
      (f < c.FRAME_COUNT ∧ s.frame_usage f = 0 ∧ ∀ k, k < f → s.frame_usage k ≠ 0)) := by
  rcases find_free_frame_loop_spec s.frame_usage c.FRAME_COUNT 0 with
    ⟨h1, h2⟩ | ⟨j, _, hj, hz, heq, hlow⟩
  · have e : find_free_frame c s = -1 := h1
    refine ⟨⟨fun _ i hi => h2 i (Nat.zero_le _) (by omega), fun _ => e⟩, ?_⟩
    intro f
    constructor
    · intro hf; rw [e] at hf; omega
    · rintro ⟨hf, hz, _⟩
      exact absurd hz (h2 f (Nat.zero_le _) (by omega))
  · have e : find_free_frame c s = (j : Int) := heq
    refine ⟨⟨fun h => by rw [e] at h; omega, fun h => absurd hz (h j (by omega))⟩, ?_⟩
    intro f
    constructor
    · intro hf
      rw [e] at hf
      have : j = f := by omega
      subst this
      exact ⟨by omega, hz, fun k hk => hlow k (Nat.zero_le _) hk⟩
    · rintro ⟨hf, hzf, hlowf⟩
      rw [e]
      have : j = f := by
        rcases Nat.lt_trichotomy j f with h | h | h
        · exact absurd hz (hlowf j h)
        · exact h
        · exact absurd hzf (hlow f (Nat.zero_le _) h)
      rw [this]

/-- C15 (page fault with a free frame).  In every state, `find_free_frame` returns `-1`
exactly when no frame is free and otherwise the smallest index `i` with
`frame_usage[i] == 0`; and in every state in which at least one frame is free, for every
page `p`, `handle_page_fault(p, policy)` returns, having bound `p` to the
lowest-numbered free frame `f`: the frame is marked occupied, `p` is valid with frame
number `f`, `page_faults` has increased by one, and no other page-table entry has changed
its valid flag or frame number and no other frame its occupancy. -/
theorem fault_with_free_frame (c : Config) (policy : Int) (s : State) (p : Nat)
    (h31 : c.FRAME_COUNT ≤ 2 ^ 31) :
    (find_free_frame c s = -1 ↔ ∀ i, i < c.FRAME_COUNT → s.frame_usage i ≠ 0) ∧
    (∀ f : Nat, find_free_frame c s = (f : Int) ↔
      (f < c.FRAME_COUNT ∧ s.frame_usage f = 0 ∧ ∀ k, k < f → s.frame_usage k ≠ 0)) ∧
    (find_free_frame c s = -1 ∨ ∃ f : Nat, find_free_frame c s = (f : Int)) ∧
    ((∃ i, i < c.FRAME_COUNT ∧ s.frame_usage i = 0) →
      ∃ (f : Nat) (s1 : State),
        find_free_frame c s = (f : Int) ∧ f < c.FRAME_COUNT ∧ s.frame_usage f = 0 ∧
        (∀ k, k < f → s.frame_usage k ≠ 0) ∧
        handle_page_fault c s p policy = some s1 ∧
        s1.frame_usage f = 1 ∧ (s1.page_table p).valid = true ∧
        (s1.page_table p).frame_number = f ∧ s1.page_faults = s.page_faults + 1 ∧
        (∀ i, i ≠ p → (s1.page_table i).valid = (s.page_table i).valid ∧
          (s1.page_table i).frame_number = (s.page_table i).frame_number) ∧
        (∀ i, i ≠ f → s1.frame_usage i = s.frame_usage i)) := by
  refine ⟨(find_free_frame_spec c s).1, (find_free_frame_spec c s).2, ?_, ?_⟩
  · rcases find_free_frame_loop_spec s.frame_usage c.FRAME_COUNT 0 with
      ⟨h1, _⟩ | ⟨f, _, _, _, heq, _⟩
    · exact Or.inl h1
    · exact Or.inr ⟨f, heq⟩
  · intro hfree
    rcases find_free_frame_loop_spec s.frame_usage c.FRAME_COUNT 0 with
      ⟨_, h2⟩ | ⟨f, _, hf, hz, heq, hlow⟩
    · obtain ⟨i, hi, hz⟩ := hfree
      exact absurd hz (h2 i (Nat.zero_le _) (by omega))
    · have e : find_free_frame c s = (f : Int) := heq
      have hlt : f < c.FRAME_COUNT := by omega
      refine ⟨f, bind_frame c s p f, e, hlt, hz, fun k hk => hlow k (Nat.zero_le _) hk,
        handle_page_fault_free c s p policy f hlt h31 e, ?_, ?_, ?_, rfl, ?_, ?_⟩
      · simp [bind_frame]
      · simp [bind_frame]
      · simp [bind_frame]
      · intro i hi
        simp only [bind_frame]
        rw [store_other _ _ hi]
        exact ⟨rfl, rfl⟩
      · intro i hi
        simp only [bind_frame]
        exact store_other _ _ hi

theorem fault_with_free_frame_witness :
    (∃ i, i < source_config.FRAME_COUNT ∧
      (after source_config 1 [0x5000, 0x6000]).frame_usage i = 0) ∧
    (∃ s1 : State,
      find_free_frame source_config (after source_config 1 [0x5000, 0x6000]) = 2 ∧
      handle_page_fault source_config (after source_config 1 [0x5000, 0x6000]) 9 1 = some s1 ∧
      s1.frame_usage 2 = 1 ∧ (s1.page_table 9).valid = true ∧
      (s1.page_table 9).frame_number = 2) ∧
    (∀ i, i < source_config.FRAME_COUNT →
      (after source_config 1 fill_trace).frame_usage i ≠ 0) ∧
    find_free_frame source_config (after source_config 1 fill_trace) = -1 := by
  have hfree : ∃ i, i < source_config.FRAME_COUNT ∧
      (after source_config 1 [0x5000, 0x6000]).frame_usage i = 0 := ⟨2, by decide, by decide!⟩
  have h := fault_with_free_frame source_config 1 (after source_config 1 [0x5000, 0x6000]) 9
    (by decide)
  obtain ⟨f, s1, h1, hlt, hz, hlow, h5, h6, h7, h8, _⟩ := h.2.2.2 hfree
  have e : find_free_frame source_config (after source_config 1 [0x5000, 0x6000]) = 2 :=
    (h.2.1 2).mpr ⟨by decide, by decide!, by decide!⟩
  have hf : f = 2 := by rw [e] at h1; omega
  subst hf
  have hfull : ∀ i, i < source_config.FRAME_COUNT →
      (after source_config 1 fill_trace).frame_usage i ≠ 0 := by decide!
  exact ⟨hfree, ⟨s1, e, h5, h6, h7, h8⟩, hfull,
    (fault_with_free_frame source_config 1 (after source_config 1 fill_trace) 9
      (by decide)).1.mpr hfull⟩

/-! ## C16: usage errors -/

/-- With more than three arguments, or with three arguments and a policy selector other
than 0 and 1, `main` returns 1 without initialising the tables or reading a trace. -/
theorem main_usage_error (c : Config) (atoi : String → Int)
    (fopen : String → Option (List Record)) (fuel : Nat) (argv : List String)
    (selector : String) (h2 : argv[2]? = some selector)
    (h : argv.length ≠ 3 ∨ (atoi selector ≠ 0 ∧ atoi selector ≠ 1)) :
    main c atoi fopen fuel argv =
      Outcome.returned
        { exit_code := 1, state := zero_state, trace := none, reported := none } := by
  unfold main
  rw [h2]
  by_cases hl : argv.length ≠ 3
  · simp [hl]
  · rcases h with h | h
    · exact absurd h hl
    · simp [hl, h]

/-- C16 (usage errors) does not hold for main.c.  With a single user argument
(`argc == 2`, for instance `./sim trace.txt`) `main` evaluates `atoi(argv[2])` before it
tests `argc`: it reads an argument that is absent, and its behaviour is undefined rather
than a return of a non-zero exit code.  The same holds with no user argument. -/
theorem usage_error_reads_absent_argument (c : Config) (atoi : String → Int)
    (fopen : String → Option (List Record)) (fuel : Nat) :
    main c atoi fopen fuel ["./sim", "trace.txt"] = Outcome.undefined ∧
    main c atoi fopen fuel ["./sim"] = Outcome.undefined :=
  ⟨rfl, rfl⟩

/-! ## C17: malformed records -/

theorem read_trace_loop_entry (c : Config) (policy : Int) (fuel : Nat) (a : Nat) (t : Char)
    (rest : List Record) (address : Option Nat) (s : State) :
    read_trace_loop c policy (fuel + 1) (Record.entry a t :: rest) address s =
      match process_address c s a policy with
      | none => Outcome.undefined
      | some (s1, _) => read_trace_loop c policy fuel rest (some a) s1 := by
  simp [read_trace_loop, fscanf, EOF]

theorem read_trace_loop_malformed (c : Config) (policy : Int) (fuel : Nat) (a : Nat)
    (rest : List Record) (s : State) :
    read_trace_loop c policy (fuel + 1) (Record.malformed :: rest) (some a) s =
      match process_address c s a policy with
      | none => Outcome.undefined
      | some (s1, _) =>
        read_trace_loop c policy fuel (Record.malformed :: rest) (some a) s1 := by
  simp [read_trace_loop, fscanf, EOF]

theorem read_trace_loop_nil (c : Config) (policy : Int) (fuel : Nat) (address : Option Nat)
    (s : State) : read_trace_loop c policy (fuel + 1) [] address s = Outcome.returned s := by
  simp [read_trace_loop, fscanf, EOF]

/-- On a trace made of well-formed records only the loop ends at the end of the file,
having called `process_address` once per record, in order. -/
theorem read_trace_loop_entries (c : Config) (policy : Int) (records : List (Nat × Char)) :
    ∀ (fuel : Nat) (address : Option Nat) (s : State), records.length < fuel →
      read_trace_loop c policy fuel (records.map (fun r => Record.entry r.1 r.2)) address s =
        match run c policy s (records.map Prod.fst) with
        | none => Outcome.undefined
        | some s1 => Outcome.returned s1 := by
  induction records with
  | nil =>
    intro fuel address s h
    obtain ⟨f, rfl⟩ : ∃ f, fuel = f + 1 := ⟨fuel - 1, by simp at h; omega⟩
    simp [read_trace_loop_nil, run]
  | cons r rest ih =>
    intro fuel address s h
    obtain ⟨f, rfl⟩ : ∃ f, fuel = f + 1 := ⟨fuel - 1, by simp at h; omega⟩
    simp only [List.map_cons, read_trace_loop_entry, run]
    cases hp : process_address c s r.1 policy with
    | none => rfl
    | some res =>
      obtain ⟨s1, ph⟩ := res
      exact ih f (some r.1) s1 (by simp at h; omega)

/-- Once the next record is malformed the loop never reaches its end: every iteration
gets 0 from `fscanf`, which is not `EOF`, and finds the same record again. -/
theorem read_trace_loop_never_returns (c : Config) (policy : Int) (rest : List Record)
    (fuel : Nat) :
    ∀ (address : Option Nat) (s s1 : State),
      read_trace_loop c policy fuel (Record.malformed :: rest) address s
        ≠ Outcome.returned s1 := by
  induction fuel with
  | zero => intro address s s1 h; simp [read_trace_loop] at h
  | succ f ih =>
    intro address s s1
    cases address with
    | none => simp [read_trace_loop, fscanf, EOF]
    | some a =>
      rw [read_trace_loop_malformed]
      cases hp : process_address c s a policy with
      | none => simp
      | some res => exact ih _ _ _

/-- Under a policy other than LRU the loop runs forever on a malformed record (every
call of `process_address` returns), from any state satisfying the invariant. -/
theorem read_trace_loop_diverges (c : Config) (hc : c.WellFormed) (policy : Int)
    (hpol : policy ≠ 0) (rest : List Record) (a : Nat) (hp : a >>> 12 < c.PAGE_TABLE_SIZE)
    (fuel : Nat) :
    ∀ s : State, Inv c s →
      read_trace_loop c policy fuel (Record.malformed :: rest) (some a) s
        = Outcome.out_of_fuel := by
  induction fuel with
  | zero => intro s _; rfl
  | succ f ih =>
    intro s hi
    rw [read_trace_loop_malformed]
    obtain ⟨s1, ph, hstep⟩ := process_address_returns hc hi a policy hp (fun e => absurd e hpol)
    rw [hstep]
    exact ih s1 (inv_process_address hc hi hstep)

/-- While the next record is malformed, `n` iterations of the loop are `n` calls of
`process_address` with the address left in the variable by the last well-formed
record. -/
theorem read_trace_loop_malformed_iterate (c : Config) (policy : Int) (rest : List Record)
    (a : Nat) (fuel : Nat) (n : Nat) :
    ∀ s : State,
      read_trace_loop c policy (n + fuel) (Record.malformed :: rest) (some a) s =
        match run c policy s (List.replicate n a) with
        | none => Outcome.undefined
        | some s1 => read_trace_loop c policy fuel (Record.malformed :: rest) (some a) s1 := by
  induction n with
  | zero => intro s; simp [run]
  | succ n ih =>
    intro s
    have e : n + 1 + fuel = (n + fuel) + 1 := by omega
    rw [e, read_trace_loop_malformed]
    simp only [List.replicate_succ, run]
    cases hp : process_address c s a policy with
    | none => rfl
    | some res => exact ih res.1

/-- C17 (a malformed record ends the run) does not hold for main.c.  Take the trace
file with the well-formed record `1000 R` followed by a record that is no hexadecimal
number (`k = 1`).  Whatever the fuel: (a) under either policy `read_trace_file` does not
return; (b) under Second-Chance it is still running when the fuel runs out, and so is
`main`, which therefore never reports the statistics; (c) after `n + 1` iterations
`process_address` has been called `n + 1` times with the address `0x1000`, not once. -/
theorem malformed_record_never_ends (fuel : Nat) :
    (∀ (policy : Int) (s1 : State),
      read_trace_file source_config
        (fun _ => some [Record.entry 0x1000 'R', Record.malformed]) "trace.txt" policy fuel
        (initial source_config) ≠ Outcome.returned s1) ∧
    read_trace_file source_config
      (fun _ => some [Record.entry 0x1000 'R', Record.malformed]) "trace.txt" 1 fuel
      (initial source_config) = Outcome.out_of_fuel ∧
    main source_config (fun _ => 1)
      (fun _ => some [Record.entry 0x1000 'R', Record.malformed]) fuel
      ["./sim", "trace.txt", "1"] = Outcome.out_of_fuel ∧
    (∀ n : Nat, ∃ s : State,
      run source_config 1 (initial source_config) (List.replicate (n + 1) 0x1000) = some s ∧
      s.tlb_hits + s.tlb_miss = (n : Int) + 1 ∧
      read_trace_loop source_config 1 (n + 1 + fuel)
        [Record.entry 0x1000 'R', Record.malformed] none (initial source_config) =
      read_trace_loop source_config 1 fuel [Record.malformed] (some 0x1000) s) := by
  have hwf := source_config_wellFormed
  have hinv := inv_initial source_config hwf
  have hpage : 0x1000 >>> 12 < source_config.PAGE_TABLE_SIZE := by decide
  have hrun : read_trace_file source_config
      (fun _ => some [Record.entry 0x1000 'R', Record.malformed]) "trace.txt" 1 fuel
      (initial source_config) = Outcome.out_of_fuel := by
    simp only [read_trace_file]
    cases fuel with
    | zero => rfl
    | succ f =>
      rw [read_trace_loop_entry]
      obtain ⟨s1, ph, hstep⟩ := process_address_returns hwf hinv 0x1000 1 hpage
        (fun e => absurd e (by decide))
      rw [hstep]
      exact read_trace_loop_diverges source_config hwf 1 (by decide) [] 0x1000 hpage f s1
        (inv_process_address hwf hinv hstep)
  refine ⟨?_, hrun, ?_, ?_⟩
  · intro policy s1
    simp only [read_trace_file]
    cases fuel with
    | zero => simp [read_trace_loop]
    | succ f =>
      rw [read_trace_loop_entry]
      cases hp : process_address source_config (initial source_config) 0x1000 policy with
      | none => simp
      | some res => exact read_trace_loop_never_returns source_config policy [] f _ _ _
  · have hr : read_trace_file source_config
        (fun _ => some [Record.entry 0x1000 'R', Record.malformed]) "trace.txt" 1 fuel
        (init_tlb source_config (init_page_table source_config zero_state))
          = Outcome.out_of_fuel := hrun
    simp [main, hr]
  · intro n
    obtain ⟨s, hs⟩ := run_returns hwf (List.replicate (n + 1) 0x1000) (initial source_config)
      hinv (fun x hx => by rw [List.eq_of_mem_replicate hx]; exact hpage)
      (fun e => absurd e (show ¬ ((1 : Int) = 0) by decide))
    refine ⟨s, hs, ?_, ?_⟩
    · have h1 := (run_stats (by decide) _ _ _ hs).1
      have e1 : (initial source_config).tlb_hits = 0 := rfl
      have e2 : (initial source_config).tlb_miss = 0 := rfl
      rw [e1, e2] at h1
      simp only [List.length_replicate] at h1
      push_cast at h1
      omega
    · have e : n + 1 + fuel = (n + fuel) + 1 := by omega
      rw [e, read_trace_loop_entry]
      simp only [List.replicate_succ, run] at hs
      cases hp : process_address source_config (initial source_config) 0x1000 1 with
      | none => rw [hp] at hs; simp at hs
      | some res =>
        obtain ⟨s1, ph⟩ := res
        rw [hp] at hs
        simp only at hs ⊢
        rw [read_trace_loop_malformed_iterate, hs]

/-! ## C18: LRU always finds a victim -/

theorem run_inv {c : Config} {policy : Int} (hc : c.WellFormed) (trace : List Nat) :
    ∀ s s1, Inv c s → run c policy s trace = some s1 → Inv c s1 := by
  induction trace with
  | nil => intro s s1 hi h; simp only [run, Option.some.injEq] at h; subst h; exact hi
  | cons a t ih =>
    intro s s1 hi h
    simp only [run] at h
    cases hp : process_address c s a policy with
    | none => rw [hp] at h; simp at h
    | some r =>
      rw [hp] at h
      exact ih r.1 s1 (inv_process_address hc hi hp) h

/-- Under LRU the clock `lru_counter` counts the calls of `process_address`. -/
theorem run_lru_counter {c : Config} (h31 : c.FRAME_COUNT ≤ 2 ^ 31) (trace : List Nat) :
    ∀ s s1, run c 0 s trace = some s1 →
      s1.lru_counter = s.lru_counter + (trace.length : Int) := by
  induction trace with
  | nil => intro s s1 h; simp only [run, Option.some.injEq] at h; subst h; simp
  | cons a t ih =>
    intro s s1 h
    simp only [run] at h
    cases hp : process_address c s a 0 with
    | none => rw [hp] at h; simp at h
    | some r =>
      obtain ⟨s0, ph⟩ := r
      rw [hp] at h
      have h1 := ih s0 s1 h
      have h2 := process_address_lru_counter h31 hp
      rw [if_pos rfl] at h2
      simp only [List.length_cons, Nat.cast_add, Nat.cast_one]
      omega

/-- C18 (LRU always finds a victim).  Under policy 0, in every state reached from the
initial state by fewer than `INT_MAX` calls of `process_address`: whenever
`find_free_frame` returns `-1` there is a valid page-table entry with
`lru_counter < INT_MAX`, so the scan of `lru_replacement` ends with `oldest` a page
index (not `-1`), `page_table[-1]` is never read, and `lru_replacement` returns. -/
theorem lru_finds_victim (c : Config) (hc : c.WellFormed) (trace : List Nat) (s : State)
    (hrun : run c 0 (initial c) trace = some s)
    (hlen : (trace.length : Int) < INT_MAX)
    (hfull : find_free_frame c s = -1) :
    (∃ i, i < c.PAGE_TABLE_SIZE ∧ (s.page_table i).valid = true ∧
        (s.page_table i).lru_counter < INT_MAX) ∧
    (∃ oldest : Nat, oldest < c.PAGE_TABLE_SIZE ∧
        (lru_scan s.page_table c.PAGE_TABLE_SIZE).1 = (oldest : Int) ∧
        lru_replacement c s = some (toInt32 (s.page_table oldest).frame_number)) := by
  obtain ⟨hF, hFP, hP20, hT, hT31⟩ := hc
  have hc : c.WellFormed := ⟨hF, hFP, hP20, hT, hT31⟩
  have hi := run_inv hc trace _ _ (inv_initial c hc) hrun
  have hclock := run_lru_counter (by omega) trace _ _ hrun
  have e0 : (initial c).lru_counter = 0 := rfl
  rw [e0] at hclock
  have hfullall := (find_free_frame_spec c s).1.mp hfull
  have hres : ∃ i, i < c.PAGE_TABLE_SIZE ∧ (s.page_table i).valid = true := by
    rcases hi.resident with ⟨i, hi1, hz⟩ | hr
    · exact absurd hz (hfullall i hi1)
    · exact hr
  obtain ⟨i, hi1, hv⟩ := hres
  have hci := hi.counters i
  refine ⟨⟨i, hi1, hv, by omega⟩, ?_⟩
  rcases lru_scan_spec s.page_table c.PAGE_TABLE_SIZE with ⟨_, hno⟩ | ⟨j, hj, _, _, heq, _, _⟩
  · have := hno i hi1 hv; omega
  · have e : (lru_scan s.page_table c.PAGE_TABLE_SIZE).1 = (j : Int) := by rw [heq]
    exact ⟨j, hj, e, lru_replacement_eq c s j e⟩

theorem lru_finds_victim_witness :
    run source_config 0 (initial source_config) fill_trace =
      some (after source_config 0 fill_trace) ∧
    find_free_frame source_config (after source_config 0 fill_trace) = -1 ∧
    (∃ i, i < source_config.PAGE_TABLE_SIZE ∧
        ((after source_config 0 fill_trace).page_table i).valid = true ∧
        ((after source_config 0 fill_trace).page_table i).lru_counter < INT_MAX) ∧
    (∃ oldest : Nat, oldest < source_config.PAGE_TABLE_SIZE ∧
        (lru_scan (after source_config 0 fill_trace).page_table
          source_config.PAGE_TABLE_SIZE).1 = (oldest : Int) ∧
        lru_replacement source_config (after source_config 0 fill_trace) =
          some (toInt32 ((after source_config 0 fill_trace).page_table oldest).frame_number)) :=
  have hrun := run_eq_some_after fill_trace_facts.1
  have hfull := fill_trace_facts.2.2.2.1
  ⟨hrun, hfull,
    lru_finds_victim source_config source_config_wellFormed fill_trace _ hrun (by decide) hfull⟩

/-! ## C19: index safety -/

/-- Under LRU every resident page has been stamped with an earlier value of the clock,
and the clock has not passed `INT_MAX`. -/
theorem reachable_stamps {c : Config} {s : State} (hc : c.WellFormed)
    (hs : Reachable c 0 s) :
    (∀ i, (s.page_table i).valid = true → (s.page_table i).lru_counter < s.lru_counter) ∧
    s.lru_counter ≤ INT_MAX := by
  have h31 : c.FRAME_COUNT ≤ 2 ^ 31 := by
    obtain ⟨_, h2, h3, _, _⟩ := hc; omega
  induction hs with
  | init =>
    refine ⟨fun i hv => ?_, show (0 : Int) ≤ INT_MAX by decide⟩
    rw [initial_not_valid] at hv
    exact absurd hv (by simp)
  | step _ _ hstep ih =>
    rename_i s0 s4 a physical _ _
    obtain ⟨ih1, ih2⟩ := ih
    -- `s4 = touch x p 0` for a state `x` whose resident pages are stamped before its clock
    have key : ∃ x : State, s4 = touch x (a >>> 12) 0 ∧ x.lru_counter < INT_MAX ∧
        ∀ i, i ≠ a >>> 12 → (x.page_table i).valid = true →
          (x.page_table i).lru_counter < x.lru_counter := by
      rcases process_address_cases c s0 s4 a physical 0 hstep with
        ⟨_, ⟨_, hctr, e, _⟩ | ⟨_, _, hctr, e, _⟩ | ⟨_, _, s2, hpf, hctr, e, _⟩⟩
      · exact ⟨_, e, hctr rfl, fun i _ hv => ih1 i hv⟩
      · exact ⟨_, e, hctr rfl, fun i _ hv => ih1 i hv⟩
      · refine ⟨_, e, hctr rfl, ?_⟩
        obtain ⟨x0, f, _, rfl, _, hlc, hval, _, _, _, hl, _⟩ := handle_page_fault_effect h31 hpf
        intro i hi hv
        simp only [update_tlb, bind_frame] at hv ⊢
        rw [store_other _ _ hi] at hv ⊢
        rw [hlc, hl]
        exact ih1 i (hval i hv)
    obtain ⟨x, rfl, hx, hstamp⟩ := key
    have hclock : (touch x (a >>> 12) 0).lru_counter = x.lru_counter + 1 := by
      simp [touch]
    refine ⟨fun i hv => ?_, by rw [hclock]; omega⟩
    rw [hclock]
    rw [touch_valid] at hv
    by_cases e : i = a >>> 12
    · subst e; simp [touch]
    · have := hstamp i e hv
      have e2 : ((touch x (a >>> 12) 0).page_table i).lru_counter
          = (x.page_table i).lru_counter := by
        simp [touch, store_other _ _ e]
      rw [e2]; omega

/-- In a state satisfying the invariant `handle_page_fault` returns (every array access
it makes is inside its array), provided that under LRU every resident page has a counter
below `INT_MAX`. -/
theorem handle_page_fault_in_bounds {c : Config} {s : State} (hc : c.WellFormed) (h : Inv c s)
    (p : Nat) (policy : Int)
    (hstamp : policy = 0 → ∀ i, (s.page_table i).valid = true →
      (s.page_table i).lru_counter < INT_MAX) :
    ∃ s2, handle_page_fault c s p policy = some s2 := by
  obtain ⟨hF, hFP, hP20, hT, hT31⟩ := hc
  rcases find_free_frame_loop_spec s.frame_usage c.FRAME_COUNT 0 with
    ⟨h1, h2⟩ | ⟨j, _, hj, _, h4, _⟩
  · have hres : ∃ i, i < c.PAGE_TABLE_SIZE ∧ (s.page_table i).valid = true := by
      rcases h.resident with ⟨i, hi, hz⟩ | hr
      · exact absurd hz (h2 i (Nat.zero_le _) (by omega))
      · exact hr
    by_cases hpol : policy = 0
    · obtain ⟨i, hi, hv⟩ := hres
      rcases lru_scan_spec s.page_table c.PAGE_TABLE_SIZE with
        ⟨_, hno⟩ | ⟨j, hj, _, _, heq, _, _⟩
      · have h5 := hno i hi hv
        have h6 := hstamp hpol i hv
        omega
      · have hfj := h.frames_lt j
        have hfv := h.frames_lt (s.page_table j).frame_number
        have e : (lru_scan s.page_table c.PAGE_TABLE_SIZE).1 = (j : Int) := by rw [heq]
        have hl := lru_replacement_eq c s j e
        rw [toInt32_of_lt (by omega)] at hl
        exact ⟨_, handle_page_fault_victim c s s p policy (s.page_table j).frame_number
          (s.page_table (s.page_table j).frame_number).frame_number (by omega) hfv (by omega) h1
          (by rw [if_pos hpol, hl]; rfl) (toInt32_of_lt (by omega))⟩
    · obtain ⟨s1, hs1, _, hq, hsame, _⟩ :=
        second_chance_replacement_spec c (by omega) s h.pointer_lt
      have hfq : (s1.page_table s1.pointer).frame_number < c.FRAME_COUNT := by
        rw [(hsame _).2.1]; exact h.frames_lt _
      have hfv : (s1.page_table (s1.page_table s1.pointer).frame_number).frame_number
          < c.FRAME_COUNT := by
        rw [(hsame _).2.1]; exact h.frames_lt _
      rw [toInt32_of_lt (show (s1.page_table s1.pointer).frame_number < 2 ^ 31 by omega)] at hs1
      exact ⟨_, handle_page_fault_victim c s s1 p policy (s1.page_table s1.pointer).frame_number
        (s1.page_table (s1.page_table s1.pointer).frame_number).frame_number (by omega) hfv
        (by omega) h1 (by rw [if_neg hpol, hs1]) (toInt32_of_lt (by omega))⟩
  · exact ⟨_, handle_page_fault_free c s p policy j (by omega) (by omega) h4⟩

/-- C19 (index safety).  In every state reachable by `process_address` calls, under
either policy: every frame number stored in the page table and in the TLB is below
`FRAME_COUNT` and is not mistaken for the miss value `-1` of `search_tlb`; the index
`find_free_frame` returns is `-1` or a frame index; the value the replacement function
returns, which `handle_page_fault` uses as `victim_page`, is a page index and the frame
number read in that entry is a frame index; and so `handle_page_fault` returns for every
page, no access of it leaving `page_table` or `frame_usage`. -/
theorem index_safety (c : Config) (policy : Int) (hc : c.WellFormed)
    (s : State) (hs : Reachable c policy s) :
    (∀ i, (s.page_table i).frame_number < c.FRAME_COUNT ∧
        toInt32 (s.page_table i).frame_number ≠ -1) ∧
    (∀ j, (s.tlb j).frame_number < c.FRAME_COUNT ∧ toInt32 (s.tlb j).frame_number ≠ -1) ∧
    (find_free_frame c s = -1 ∨
        (0 ≤ find_free_frame c s ∧ find_free_frame c s < (c.FRAME_COUNT : Int))) ∧
    (∀ (s1 : State) (victim_page : Int),
        (if policy = 0 then (lru_replacement c s).map (fun r => (s, r))
         else second_chance_replacement c s) = some (s1, victim_page) →
        0 ≤ victim_page ∧ victim_page < (c.PAGE_TABLE_SIZE : Int) ∧
        0 ≤ toInt32 (s1.page_table victim_page.toNat).frame_number ∧
        toInt32 (s1.page_table victim_page.toNat).frame_number < (c.FRAME_COUNT : Int)) ∧
    (∀ p : Nat, ∃ s2, handle_page_fault c s p policy = some s2) := by
  have hi := reachable_inv hc hs
  obtain ⟨hF, hFP, hP20, hT, hT31⟩ := hc
  have hc : c.WellFormed := ⟨hF, hFP, hP20, hT, hT31⟩
  refine ⟨?_, ?_, ?_, ?_, ?_⟩
  · intro i
    have := hi.frames_lt i
    exact ⟨this, toInt32_ne_neg_one (by omega)⟩
  · intro j
    have := hi.tlb_frames j
    exact ⟨this, toInt32_ne_neg_one (by omega)⟩
  · rcases find_free_frame_loop_spec s.frame_usage c.FRAME_COUNT 0 with
      ⟨h1, _⟩ | ⟨j, _, hj, _, h4, _⟩
    · exact Or.inl h1
    · right
      have e : find_free_frame c s = (j : Int) := h4
      rw [e]; omega
  · intro s1 v hsel
    -- the value returned is a frame number stored in the page table
    have key : (∃ i, v = toInt32 (s.page_table i).frame_number) ∧
        ∀ i, (s1.page_table i).frame_number = (s.page_table i).frame_number := by
      by_cases h0 : policy = 0
      · rw [if_pos h0] at hsel
        unfold lru_replacement at hsel
        simp only at hsel
        split at hsel
        · simp at hsel
        · simp only [Option.map_some', Option.some.injEq, Prod.mk.injEq] at hsel
          obtain ⟨rfl, rfl⟩ := hsel
          exact ⟨⟨_, rfl⟩, fun _ => rfl⟩
      · rw [if_neg h0] at hsel
        obtain ⟨s1', h1, _, _, hsame, _⟩ :=
          second_chance_replacement_spec c (by omega) s hi.pointer_lt
        rw [h1] at hsel
        simp only [Option.some.injEq, Prod.mk.injEq] at hsel
        obtain ⟨rfl, rfl⟩ := hsel
        exact ⟨⟨s1'.pointer, by rw [(hsame _).2.1]⟩, fun i => (hsame i).2.1⟩
    obtain ⟨⟨i, rfl⟩, hsame⟩ := key
    have h1 := hi.frames_lt i
    rw [toInt32_of_lt (by omega)]
    have h2 := hi.frames_lt (s.page_table i).frame_number
    simp only [Int.toNat_ofNat]
    rw [hsame, toInt32_of_lt (by omega)]
    omega
  · intro p
    refine handle_page_fault_in_bounds hc hi p policy ?_
    intro h0 i hv
    subst h0
    have := reachable_stamps hc hs
    have h1 := this.1 i hv
    omega

theorem index_safety_witness :
    Reachable source_config 0 (after source_config 0 fill_trace) ∧
    (∀ i, ((after source_config 0 fill_trace).page_table i).frame_number
        < source_config.FRAME_COUNT) ∧
    (∀ j, ((after source_config 0 fill_trace).tlb j).frame_number
        < source_config.FRAME_COUNT) ∧
    (∀ p : Nat, ∃ s2,
      handle_page_fault source_config (after source_config 0 fill_trace) p 0 = some s2) :=
  have hr : Reachable source_config 0 (after source_config 0 fill_trace) :=
    after_reachable (by decide) fill_trace_facts.1
  have h := index_safety source_config 0 source_config_wellFormed _ hr
  ⟨hr, fun i => (h.1 i).1, fun j => (h.2.1 j).1, h.2.2.2.2⟩

/-! ## C20: monotone prefix occupancy -/

/-- A call of `process_address` either leaves `frame_usage` and `page_faults` alone, or
counts one page fault and writes 1 into `frame_usage[f]`, where `f` is the index
`find_free_frame` returned or, when that was `-1`, some frame index. -/
theorem process_address_frame_usage {c : Config} {s s4 : State} {a physical : Nat}
    {policy : Int} (h31 : c.FRAME_COUNT ≤ 2 ^ 31)
    (h : process_address c s a policy = some (s4, physical)) :
    (s4.frame_usage = s.frame_usage ∧ s4.page_faults = s.page_faults) ∨
    (∃ f : Nat, f < c.FRAME_COUNT ∧ s4.frame_usage = store s.frame_usage f 1 ∧
      s4.page_faults = s.page_faults + 1 ∧
      (find_free_frame c s = (f : Int) ∨ find_free_frame c s = -1)) := by
  rcases process_address_cases c s s4 a physical policy h with
    ⟨_, ⟨_, _, rfl, _⟩ | ⟨_, _, _, rfl, _⟩ | ⟨_, _, s2, hpf, _, rfl, _⟩⟩
  · left; exact ⟨by rw [touch_frame_usage]; rfl, by rw [touch_page_faults]; rfl⟩
  · left; exact ⟨by rw [touch_frame_usage]; rfl, by rw [touch_page_faults]; rfl⟩
  · right
    rcases handle_page_fault_cases c (count_miss s) s2 _ policy h31 hpf with
      ⟨f, hf, hfree, rfl⟩ | ⟨hfull, s1, v, f, _, hf, hsel, _, rfl⟩
    · exact ⟨f, hf, by rw [touch_frame_usage]; rfl, by rw [touch_page_faults]; rfl,
        Or.inl hfree⟩
    · have hs1 : s1.frame_usage = s.frame_usage ∧ s1.page_faults = s.page_faults := by
        by_cases hpol : policy = 0
        · rw [if_pos hpol] at hsel
          cases hl : lru_replacement c (count_miss s) with
          | none => rw [hl] at hsel; simp at hsel
          | some r =>
            rw [hl] at hsel
            simp only [Option.map_some', Option.some.injEq, Prod.mk.injEq] at hsel
            obtain ⟨rfl, _⟩ := hsel
            exact ⟨rfl, rfl⟩
        · rw [if_neg hpol] at hsel
          obtain ⟨_, _, h3, _, _, _, h7, _⟩ :=
            second_chance_replacement_same c (count_miss s) s1 _ hsel
          exact ⟨h3, h7⟩
      refine ⟨f, hf, ?_, ?_, Or.inr hfull⟩
      · rw [touch_frame_usage]
        simp only [update_tlb, bind_frame, evict]
        rw [hs1.1]
      · rw [touch_page_faults]
        simp only [update_tlb, bind_frame, evict]
        rw [hs1.2]

/-- In every reachable state the occupied frames are those with an index below
`page_faults`. -/
theorem reachable_prefix {c : Config} {policy : Int} {s : State} (hc : c.WellFormed)
    (hs : Reachable c policy s) :
    0 ≤ s.page_faults ∧
    ∀ i, i < c.FRAME_COUNT → (s.frame_usage i ≠ 0 ↔ (i : Int) < s.page_faults) := by
  have h31 : c.FRAME_COUNT ≤ 2 ^ 31 := by
    obtain ⟨_, h2, h3, _, _⟩ := hc; omega
  induction hs with
  | init =>
    refine ⟨le_refl _, fun i _ => ?_⟩
    have e1 : (initial c).frame_usage i = 0 := rfl
    have e2 : (initial c).page_faults = 0 := rfl
    rw [e1, e2]
    constructor
    · intro h; exact absurd rfl h
    · intro h; omega
  | step _ _ hstep ih =>
    rename_i s0 s4 a physical _ _
    obtain ⟨ih0, ih1⟩ := ih
    rcases process_address_frame_usage h31 hstep with ⟨e1, e2⟩ | ⟨f, hf, e1, e2, hsrc⟩
    · rw [e1, e2]; exact ⟨ih0, ih1⟩
    · rw [e1, e2]
      refine ⟨by omega, fun i hi => ?_⟩
      have hfi := ih1 i hi
      rcases hsrc with hfree | hfull
      · -- the frame bound is the lowest free one, that is, frame number `page_faults`
        obtain ⟨_, hz, hlow⟩ := ((find_free_frame_spec c s0).2 f).mp hfree
        have hfp : (f : Int) = s0.page_faults := by
          have h1 := (ih1 f hf)
          have h2 : ¬ ((f : Int) < s0.page_faults) := fun h => (h1.mpr h) hz
          by_contra hne
          have hlt : s0.page_faults < (f : Int) := by omega
          obtain ⟨k, hk⟩ := Int.eq_ofNat_of_zero_le ih0
          have hkf : k < f := by omega
          have h3 := (ih1 k (by omega)).mp (hlow k hkf)
          omega
        rw [store_apply]
        split
        · rename_i e; subst e
          constructor
          · intro _; omega
          · intro _; decide
        · rename_i e
          constructor
          · intro h; have := hfi.mp h; omega
          · intro h
            have : (i : Int) ≠ (f : Int) := by omega
            exact hfi.mpr (by omega)
      · -- no frame was free: all are occupied and stay so
        have hall := (find_free_frame_spec c s0).1.mp hfull
        rw [store_apply]
        split
        · constructor
          · intro _; have := hfi.mp (hall i hi); omega
          · intro _; decide
        · constructor
          · intro h; have := hfi.mp h; omega
          · intro _; exact hall i hi

/-- C20 (monotone prefix occupancy).  In every state reachable by `process_address`
calls, under either policy, the occupied frames are exactly those with an index below
`min(page_faults, FRAME_COUNT)`; and no call of `process_address` turns an occupied
frame back into a free one. -/
theorem monotone_prefix_occupancy (c : Config) (policy : Int) (hc : c.WellFormed) (s : State)
    (hs : Reachable c policy s) :
    (∀ i, i < c.FRAME_COUNT →
      (s.frame_usage i ≠ 0 ↔ (i : Int) < min s.page_faults (c.FRAME_COUNT : Int))) ∧
    (∀ (a : Nat) (s1 : State) (physical : Nat),
      process_address c s a policy = some (s1, physical) →
      ∀ i, s.frame_usage i ≠ 0 → s1.frame_usage i ≠ 0) := by
  have h31 : c.FRAME_COUNT ≤ 2 ^ 31 := by
    obtain ⟨_, h2, h3, _, _⟩ := hc; omega
  obtain ⟨_, hpre⟩ := reachable_prefix hc hs
  refine ⟨fun i hi => ?_, ?_⟩
  · rw [hpre i hi]
    constructor
    · intro h; exact lt_min h (by omega)
    · intro h; exact lt_of_lt_of_le h (min_le_left _ _)
  · intro a s1 physical hstep i hocc
    rcases process_address_frame_usage h31 hstep with ⟨e1, _⟩ | ⟨f, _, e1, _, _⟩
    · rw [e1]; exact hocc
    · rw [e1, store_apply]
      split
      · decide
      · exact hocc

theorem monotone_prefix_occupancy_witness :
    Reachable source_config 1 (after source_config 1 [0x5000, 0x6000, 0x5000]) ∧
    (after source_config 1 [0x5000, 0x6000, 0x5000]).page_faults = 2 ∧
    (∀ i, i < source_config.FRAME_COUNT →
      ((after source_config 1 [0x5000, 0x6000, 0x5000]).frame_usage i ≠ 0 ↔
        (i : Int) < min 2 (source_config.FRAME_COUNT : Int))) := by
  have hr : Reachable source_config 1 (after source_config 1 [0x5000, 0x6000, 0x5000]) :=
    after_reachable (by decide) (by decide!)
  have hpf : (after source_config 1 [0x5000, 0x6000, 0x5000]).page_faults = 2 := by decide!
  have h := (monotone_prefix_occupancy source_config 1 source_config_wellFormed _ hr).1
  rw [hpf] at h
  exact ⟨hr, hpf, h⟩

end PagingSim
